import Mathlib

/-!
# Nexus smart contracts: operator scripts, test utilities and the assessment engine

A shallow embedding of the JavaScript sources (operator script `set_min_pool_eth.js`,
test helper `buyCover.js`, the Assessment unit-test `index.js` and `setup.js`) and of
the assessment engine those tests exercise, followed by the properties proved
about them.
-/

/-! ## `scripts/operator/set_min_pool_eth.js` -/

namespace SetMinPoolEth

/-- A JavaScript string: its sequence of UTF-16 code units. -/
abbrev JsString := List Nat

/-- The code units of an ASCII literal. -/
def ofAscii (s : String) : JsString := s.data.map Char.toNat

/-- The builtin `String.prototype.padEnd(maxLength, fillString)`: the string is
returned as is when it already has `maxLength` units or the filler is empty;
otherwise the filler is repeated and cut so that the result has `maxLength` units. -/
def padEnd (s : JsString) (maxLength : Nat) (fillString : JsString) : JsString :=
  if maxLength ≤ s.length then s
  else if fillString.isEmpty then s
  else s ++ ((List.replicate (maxLength - s.length) fillString).flatten.take (maxLength - s.length))

/-- The three bytes of U+FFFD, written by `Buffer.from` for an unpaired surrogate. -/
def replacementBytes : List Nat := [0xEF, 0xBF, 0xBD]

/-- The UTF-8 bytes of a code point below `0x110000`. -/
def utf8OfCodePoint (c : Nat) : List Nat :=
  if c < 0x80 then [c]
  else if c < 0x800 then [0xC0 + c / 64, 0x80 + c % 64]
  else if c < 0x10000 then [0xE0 + c / 4096, 0x80 + c / 64 % 64, 0x80 + c % 64]
  else [0xF0 + c / 262144, 0x80 + c / 4096 % 64, 0x80 + c / 64 % 64, 0x80 + c % 64]

/-- The builtin `Buffer.from(string)` (default encoding `utf8`): surrogate pairs are
joined into one code point, an unpaired surrogate becomes U+FFFD. -/
def bufferFrom : JsString → List Nat
  | [] => []
  | [u] =>
    if 0xD800 ≤ u ∧ u < 0xE000 then replacementBytes else utf8OfCodePoint u
  | u :: l :: rest =>
    if 0xD800 ≤ u ∧ u < 0xDC00 then
      if 0xDC00 ≤ l ∧ l < 0xE000 then
        utf8OfCodePoint (0x10000 + (u - 0xD800) * 1024 + (l - 0xDC00)) ++ bufferFrom rest
      else replacementBytes ++ bufferFrom (l :: rest)
    else if 0xDC00 ≤ u ∧ u < 0xE000 then replacementBytes ++ bufferFrom (l :: rest)
    else utf8OfCodePoint u ++ bufferFrom (l :: rest)

/-- One hexadecimal digit, lowercase as `toString('hex')` writes it. -/
def hexDigit (n : Nat) : Char :=
  if n < 10 then Char.ofNat (48 + n) else Char.ofNat (87 + n)

/-- The two digits of one byte. -/
def hexByte (b : Nat) : List Char := [hexDigit (b / 16 % 16), hexDigit (b % 16)]

/-- The builtin `buffer.toString('hex')`. -/
def toStringHex (bytes : List Nat) : List Char := bytes.flatMap hexByte

/-- Line 4: `const hex = string => '0x' + Buffer.from(string).toString('hex')`. -/
def hex (string : JsString) : String := "0x" ++ String.mk (toStringHex (bufferFrom string))

/-- Line 6: `const minPoolEth = '0.1'`. -/
def minPoolEth : String := "0.1"

/-- The key argument of line 11: `hex('MIN_ETH'.padEnd(8, '\0'))`. -/
def minEthKey : String := hex (padEnd (ofAscii "MIN_ETH") 8 [0])

/-- The characters `toString('hex')` can write. -/
def isLowerHexDigit (c : Char) : Bool := "0123456789abcdef".data.contains c

end SetMinPoolEth

/-! ## `test/integration/utils/buyCover.js` -/

namespace BuyCover

/-- A JavaScript object read by property name; `V` is the type of its values. -/
abbrev Obj (V : Type) := String → V

/-- Lines 3-5. The body only reads properties of `cover`; the embedding returns the
array together with the object as it stands after the call. -/
def coverToCoverDetailsArray {V : Type} (cover : Obj V) : List V × Obj V :=
  ([cover "amount", cover "price", cover "priceNXM", cover "expireTime", cover "generationTime"],
   cover)

/-- The arguments of one `getSignedQuote` call (lines 9-15). -/
structure GetSignedQuoteCall (V : Type) where
  coverDetails : List V
  currency : V
  period : V
  contractAddress : V
  quotationAddress : V

/-- The arguments and transaction options of one `p1.makeCoverBegin` call (lines 17-26). -/
structure MakeCoverBeginCall (V : Type) where
  contractAddress : V
  currency : V
  coverDetails : List V
  period : V
  v : V
  r : V
  s : V
  «from» : V
  value : V

/-- What `await getSignedQuote(...)` gives back on line 9: the promise rejects and
the `await` throws the reason; or it resolves to `undefined` or `null`, on which the
read `vrsData[0]` of line 22 throws a `TypeError`; or it resolves to any other value,
read through `element i`, the value of `vrsData[i]`. -/
inductive Awaited (V : Type) where
  | rejected (reason : V)
  | nullish
  | indexable (element : Nat → V)

/-- The reads `vrsData[i]` of an array: its element, `undefined` past the end. -/
def arrayElement {V : Type} (undefined : V) (items : List V) (i : Nat) : V :=
  items.getD i undefined

/-- What `buyCover` throws instead of submitting. -/
inductive Thrown (V : Type) where
  | rejection (reason : V)
  | typeError

/-- One run of `buyCover`: the `getSignedQuote` call it always makes, and then either
the `makeCoverBegin` call it submits or what it throws before submitting. -/
structure BuyCoverRun (V : Type) where
  quote : GetSignedQuoteCall V
  result : Except (Thrown V) (MakeCoverBeginCall V)

/-- The fields of `cover` that `buyCover` reads. -/
def coverFields : List String :=
  ["amount", "price", "priceNXM", "expireTime", "generationTime", "currency", "period",
   "contractAddress"]

/-- Lines 7-27. `cover` and `qt` are objects. `getSignedQuote` (from `./getQuote`, not
part of this file) is a parameter mapping the arguments of the call to what the
`await` gives back. The function is suspended at the `await`, and `cover` is an object
shared with the caller: `whileSuspended` is what the rest of the program does to it
before `buyCover` resumes. Lines 17-25 read `cover` again after resuming. -/
def buyCover {V : Type} (getSignedQuote : GetSignedQuoteCall V → Awaited V)
    (whileSuspended : Obj V → Obj V) (cover : Obj V) (coverHolder : V) (qt : Obj V) :
    BuyCoverRun V :=
  let (signedDetails, cover1) := coverToCoverDetailsArray cover
  let quoteCall : GetSignedQuoteCall V :=
    { coverDetails := signedDetails
      currency := cover1 "currency"
      period := cover1 "period"
      contractAddress := cover1 "contractAddress"
      quotationAddress := qt "address" }
  { quote := quoteCall
    result :=
      match getSignedQuote quoteCall with
      | .rejected reason => .error (.rejection reason)
      | .nullish => .error .typeError
      | .indexable vrsData =>
        let cover2 := whileSuspended cover1
        let (sentDetails, cover3) := coverToCoverDetailsArray cover2
        .ok { contractAddress := cover2 "contractAddress"
              currency := cover2 "currency"
              coverDetails := sentDetails
              period := cover3 "period"
              v := vrsData 0
              r := vrsData 1
              s := vrsData 2
              «from» := coverHolder
              value := cover3 "price" } }

/-- A cover for the examples: amount 1000, price 5, period 61. -/
def sampleCover : Obj Nat := fun k =>
  if k = "amount" then 1000 else if k = "price" then 5 else if k = "priceNXM" then 70
  else if k = "expireTime" then 9000 else if k = "generationTime" then 8000
  else if k = "currency" then 4543560 else if k = "period" then 61
  else if k = "contractAddress" then 3735928559 else 0

/-- A caller that, while `buyCover` is suspended, sets the cover's price to 999 and
its period to 62. -/
def repriceWhileSuspended (cover : Obj Nat) : Obj Nat := fun k =>
  if k = "price" then 999 else if k = "period" then 62 else cover k

/-- A quotation object for the examples. -/
def sampleQt : Obj Nat := fun k => if k = "address" then 48879 else 0

/-- A quote signer for the examples, resolving to the array `[27, 111, 222]`. -/
def sampleGetSignedQuote (_ : GetSignedQuoteCall Nat) : Awaited Nat :=
  .indexable (arrayElement 0 [27, 111, 222])

end BuyCover

/-! ## `test/unit/Assessment/index.js` -/

namespace AssessmentSuite

/-- Lines 15-26: the modules required inside `describe('Assessment', ...)`, in order. -/
def requiredModules : List String :=
  ["./stake", "./unstake", "./getRewards", "./getPoll", "./getAssessmentsCount",
   "./getVoteCountOfAssessor", "./withdrawRewards", "./startAssessment", "./castVote",
   "./submitFraud", "./processFraud", "./updateUintParameters"]

/-- The name of the sub-suite a module path registers: the path without its `./`. -/
def subSuiteName (path : String) : String := String.mk (path.data.drop 2)

/-- The sub-suites registered in the suite's index. -/
def subSuites : List String := requiredModules.map subSuiteName

/-- The operations the component design (section 4 of the specification) names. -/
def specOperations : List String :=
  ["stake", "requestUnstake", "withdrawUnstaked", "castVote", "finalize", "getPoll",
   "getVoteCountOfAssessor", "getRewards", "withdrawRewards", "submitFraud", "processFraud",
   "startAssessment", "getAssessmentsCount", "updateUintParameters"]

end AssessmentSuite

/-! ## `test/unit/Assessment/setup.js` -/

namespace AssessmentSetup

/-- An account or contract address. -/
abbrev Address := Nat

/-- The value of a decimal digit. -/
def digitValue (c : Char) : Option Nat :=
  if 48 ≤ c.toNat ∧ c.toNat ≤ 57 then some (c.toNat - 48) else none

/-- A non-empty run of decimal digits as a number. -/
def parseDigits (cs : List Char) : Option Nat :=
  cs.foldlM (fun acc c => (digitValue c).map (fun d => acc * 10 + d)) 0

/-- Drop the zeros that end a fraction. -/
def stripTrailingZeros (cs : List Char) : List Char :=
  (cs.reverse.dropWhile (fun c => c == '0')).reverse

/-- The library function `ethers.utils.parseEther` on a non-negative decimal string:
the amount in units of `10^-18`. A string with anything but digits and one point, a
lone point, or more than 18 significant fraction digits is refused. -/
def parseEther (value : String) : Option Nat :=
  let (whole, rest) := value.data.span (fun c => c != '.')
  match rest with
  | [] => if whole.isEmpty then none else (parseDigits whole).map (fun w => w * 10 ^ 18)
  | _ :: fraction =>
    if whole.isEmpty ∧ fraction.isEmpty then none
    else
      let digits := stripTrailingZeros fraction
      if 18 < digits.length then none
      else do
        let w ← parseDigits whole
        let f ← parseDigits digits
        pure (w * 10 ^ 18 + f * 10 ^ (18 - digits.length))

/-- The contract state the member loop of `setup` touches: the roles kept by
`MasterMock`, and the balances, supply and allowances kept by `NXMTokenMock`. -/
structure Chain where
  memberRole : Address → Nat
  balanceOf : Address → Nat
  totalSupply : Nat
  allowance : Address → Address → Nat

/-- Modelled from the spec: `MasterMock.enrollMember(member, role)` is not among the
sources; the membership collaborator records the role of the address. -/
def enrollMember (c : Chain) (member : Address) (role : Nat) : Chain :=
  { c with memberRole := fun a => if a = member then role else c.memberRole a }

/-- Modelled from the spec: the membership collaborator's `isMember(address)`; an
address is a member once it holds a role. -/
def isMember (c : Chain) (a : Address) : Bool := decide (1 ≤ c.memberRole a)

/-- Modelled from the spec: `NXMTokenMock.mint(account, amount)` is not among the
sources; the token ledger's mint primitive credits the account and the supply. -/
def mint (c : Chain) (account : Address) (amount : Nat) : Chain :=
  { c with
    balanceOf := fun a => if a = account then c.balanceOf a + amount else c.balanceOf a
    totalSupply := c.totalSupply + amount }

/-- Modelled from the spec: `NXMTokenMock.approve(spender, amount)` sent by `owner`
is not among the sources; the token ledger sets the owner's allowance for the spender. -/
def approve (c : Chain) (owner spender : Address) (amount : Nat) : Chain :=
  { c with
    allowance := fun o s => if o = owner ∧ s = spender then amount else c.allowance o s }

/-- Lines 86-88, the body of the member loop. -/
def enrollAndFund (tokenController : Address) (c : Chain) (member : Address) : Option Chain := do
  let c1 := enrollMember c member 1
  let minted ← parseEther "10000"
  let c2 := mint c1 member minted
  let approved ← parseEther "10000"
  pure (approve c2 member tokenController approved)

/-- Lines 85-89: `for (const member of accounts.members) { ... }`. -/
def setupMembers (tokenController : Address) (members : List Address) (c : Chain) :
    Option Chain :=
  members.foldlM (enrollAndFund tokenController) c

end AssessmentSetup

/-! ## The assessment engine

The contract the Assessment unit tests exercise is not among the sources; the engine
below is modelled from the specification (sections 3 to 7). -/

namespace AssessmentEngine

/-- Modelled from the spec: the failure modes of sections 4 and 7; the contract that
raises them is not among the sources. The names after
`AssessmentNotEligibleForFraudCheck` stand for failures the specification describes
without naming. -/
inductive Error where
  | AssessmentNotFound
  | PollAlreadyFinalized
  | StakeBelowMinimum
  | DuplicateVote
  | InsufficientUnlockedStake
  | UnknownParameter
  | FraudAlreadyProcessed
  | AssessmentNotEligibleForFraudCheck
  | ZeroAmount
  | NotAMember
  | NotAuthorized
  | PollNotEnded
  | ProofRejected
  | FraudAttemptNotFound
  | ExternalFailure
deriving DecidableEq, Repr

/-- Modelled from the spec: the two sides of a poll (section 4.2). -/
inductive Outcome where
  | accepted
  | denied
deriving DecidableEq, Repr

/-- Modelled from the spec: the identifiers section 4.6 lists for the parameter store. -/
inductive ParameterId where
  | minimumStake
  | unstakeLockPeriod
  | votingWindow
  | rewardRatio
  | earlyBonusDecay
deriving DecidableEq, Repr

/-- Modelled from the spec: the parameter table of sections 3 and 4.6, one numeric
value per identifier. -/
structure ParameterTable where
  minimumStake : Nat
  unstakeLockPeriod : Nat
  votingWindow : Nat
  rewardRatio : Nat
  earlyBonusDecay : Nat
deriving DecidableEq, Repr

/-- Modelled from the spec: writing one parameter of the table. -/
def ParameterTable.set (t : ParameterTable) (id : ParameterId) (value : Nat) : ParameterTable :=
  match id with
  | .minimumStake => { t with minimumStake := value }
  | .unstakeLockPeriod => { t with unstakeLockPeriod := value }
  | .votingWindow => { t with votingWindow := value }
  | .rewardRatio => { t with rewardRatio := value }
  | .earlyBonusDecay => { t with earlyBonusDecay := value }

/-- Modelled from the spec: the `Member` record of section 3. -/
structure Member where
  id : Nat
  stakedAmount : Nat
  stakeLockedUntil : Nat
  lastVotedAssessmentId : Option Nat
deriving DecidableEq, Repr

/-- Modelled from the spec: the `Vote` record of section 3. -/
structure Vote where
  voter : Nat
  assessmentId : Nat
  accepted : Bool
  stakeWeightAtVote : Nat
  timestamp : Nat
  invalidated : Bool
deriving DecidableEq, Repr

/-- Modelled from the spec: the `Poll` record of section 3, with the outcome that
`finalize` stores (`none` until the poll is finalized). -/
structure Poll where
  accepted : Nat
  denied : Nat
  start : Nat
  «end» : Nat
  votes : List Vote
  outcome : Option Outcome
deriving DecidableEq, Repr

/-- Modelled from the spec: the `Assessment` record of section 3. -/
structure Assessment where
  id : Nat
  externalRef : Nat
  poll : Poll
  totalReward : Nat
  rewardRatio : Nat
deriving DecidableEq, Repr

/-- Modelled from the spec: one reward credited to a voter for one assessment
(section 4.3), with whether it has been withdrawn and whether fraud resolution has
reversed it. -/
structure RewardEntry where
  member : Nat
  assessmentId : Nat
  amount : Nat
  withdrawn : Bool
  reversed : Bool
deriving DecidableEq, Repr

/-- Modelled from the spec: the `RewardReversalRequired` instruction of sections 4.4
and 9, left in an outbox for the token collaborator. -/
structure RewardReversalRequired where
  member : Nat
  assessmentId : Nat
  amount : Nat
deriving DecidableEq, Repr

/-- Modelled from the spec: the `FraudAttempt` record of section 3. -/
structure FraudAttempt where
  accusedVoter : Nat
  assessmentIds : List Nat
  reportedAt : Nat
deriving DecidableEq, Repr

/-- Modelled from the spec: the persisted state of section 6 (stake ledger, assessment
table with embedded polls and votes, parameter table) with the reward book, the
reversal outbox and the fraud attempts. -/
structure State where
  params : ParameterTable
  members : List Member
  assessments : List Assessment
  rewards : List RewardEntry
  reversals : List RewardReversalRequired
  fraudAttempts : List FraudAttempt
deriving DecidableEq, Repr

/-- Modelled from the spec: the external collaborators of section 6 and the policies
section 9 leaves configurable. `recognize` decodes a parameter key (its identifier
strings are not in the sources), `bonusFactor decay rank` is the early-voter factor of
the vote at position `rank`, `flipWindow` and `flipExtension` rule the late-vote
extension, `fraudWindow` is the fraud-check retention limit. -/
structure Env where
  isMember : Nat → Bool
  isGovernance : Nat → Bool
  transferIn : Nat → Nat → Bool
  transferOut : Nat → Nat → Bool
  verifyProof : Nat → Nat → Bool
  recognize : String → Option ParameterId
  bonusFactor : Nat → Nat → Nat
  flipWindow : Nat
  flipExtension : Nat
  fraudWindow : Nat

/-- Modelled from the spec: the state before any operation. -/
def init (params : ParameterTable) : State :=
  { params := params, members := [], assessments := [], rewards := [], reversals := [],
    fraudAttempts := [] }

/-- Modelled from the spec: the state after a call (sections 5 and 7): the new state
when the call succeeds, the state as it was when the call is rejected. -/
def stateAfter (s : State) (r : Except Error State) : State :=
  match r with
  | .ok s' => s'
  | .error _ => s

/-! ### Parameter store -/

/-- Modelled from the spec: `updateUintParameters(key, value)` of section 4.6; an
unknown key is a validation error, raised before anything else; the call is
restricted to the governance collaborator. -/
def updateUintParameters (env : Env) (caller : Nat) (s : State) (key : String) (value : Nat) :
    Except Error State :=
  match env.recognize key with
  | none => .error .UnknownParameter
  | some id =>
    if env.isGovernance caller then .ok { s with params := s.params.set id value }
    else .error .NotAuthorized

/-! ### Stake ledger -/

/-- Modelled from the spec: a member's `stakedAmount` (zero before the first deposit). -/
def stakedAmount (s : State) (member : Nat) : Nat :=
  match s.members.find? (fun m => m.id == member) with
  | some m => m.stakedAmount
  | none => 0

/-- Modelled from the spec: a deposit creates the stake record or increases it. -/
def creditStake (members : List Member) (member amount : Nat) : List Member :=
  if members.any (fun m => m.id == member) then
    members.map (fun m => if m.id == member then { m with stakedAmount := m.stakedAmount + amount } else m)
  else
    members ++ [{ id := member, stakedAmount := amount, stakeLockedUntil := 0,
                  lastVotedAssessmentId := none }]

/-- Modelled from the spec: `stake(member, amount)` of section 4.1. -/
def stake (env : Env) (s : State) (member amount : Nat) : Except Error State :=
  if amount = 0 then .error .ZeroAmount
  else if !env.isMember member then .error .NotAMember
  else if !env.transferIn member amount then .error .ExternalFailure
  else .ok { s with members := creditStake s.members member amount }

/-! ### Assessment registry -/

/-- Modelled from the spec: `startAssessment(externalRef, rewardBudget)` of section
4.5; the new assessment's id is its position in the table. -/
def startAssessment (s : State) (externalRef rewardBudget now : Nat) : State × Nat :=
  ({ s with
     assessments := s.assessments ++
       [{ id := s.assessments.length
          externalRef := externalRef
          poll := { accepted := 0, denied := 0, start := now,
                    «end» := now + s.params.votingWindow, votes := [], outcome := none }
          totalReward := rewardBudget
          rewardRatio := s.params.rewardRatio }] },
   s.assessments.length)

/-- Modelled from the spec: `getAssessmentsCount()` of section 4.5. -/
def getAssessmentsCount (s : State) : Nat := s.assessments.length

/-! ### Poll engine -/

/-- Modelled from the spec: the side with the higher stake-weighted tally; a tie is
`denied` (section 4.2). -/
def leadingSide (accepted denied : Nat) : Outcome :=
  if denied < accepted then .accepted else .denied

/-- Modelled from the spec: `getPoll(assessmentId)` of section 4.2. -/
def getPoll (s : State) (assessmentId : Nat) : Option Poll :=
  (s.assessments[assessmentId]?).map (fun a => a.poll)

/-- Modelled from the spec: `getVoteCountOfAssessor(member)` of section 4.2, counting
the votes fraud resolution has not invalidated. -/
def getVoteCountOfAssessor (s : State) (member : Nat) : Nat :=
  ((s.assessments.map
      (fun a => (a.poll.votes.filter (fun v => v.voter == member && !v.invalidated)).length))).sum

/-- Modelled from the spec: `castVote(member, assessmentId, accepted)` of section 4.2
at time `now`. -/
def castVote (env : Env) (s : State) (member assessmentId : Nat) (accepted : Bool) (now : Nat) :
    Except Error State :=
  match s.assessments[assessmentId]? with
  | none => .error .AssessmentNotFound
  | some a =>
    if a.poll.outcome.isSome then .error .PollAlreadyFinalized
    else if !env.isMember member then .error .NotAMember
    else if stakedAmount s member < s.params.minimumStake then .error .StakeBelowMinimum
    else if a.poll.votes.any (fun v => v.voter == member) then .error .DuplicateVote
    else
      let weight := stakedAmount s member
      let accepted1 := if accepted then a.poll.accepted + weight else a.poll.accepted
      let denied1 := if accepted then a.poll.denied else a.poll.denied + weight
      let flips := leadingSide accepted1 denied1 != leadingSide a.poll.accepted a.poll.denied
      let late := decide (a.poll.«end» ≤ now + env.flipWindow ∧ now < a.poll.«end»)
      let poll1 : Poll :=
        { a.poll with
          accepted := accepted1
          denied := denied1
          «end» := if late && flips then a.poll.«end» + env.flipExtension else a.poll.«end»
          votes := a.poll.votes ++
            [{ voter := member, assessmentId := assessmentId, accepted := accepted,
               stakeWeightAtVote := weight, timestamp := now, invalidated := false }] }
      .ok { s with
            assessments := s.assessments.set assessmentId { a with poll := poll1 }
            members := s.members.map
              (fun m => if m.id == member then { m with lastVotedAssessmentId := some assessmentId }
                        else m) }

/-! ### Reward accrual -/

/-- Modelled from the spec: a vote earns a reward when it is valid and on the winning
side (section 4.3). -/
def isWinning (o : Outcome) (v : Vote) : Bool :=
  !v.invalidated && (v.accepted == (o == .accepted))

/-- Modelled from the spec: the winning votes with their position in the ordered vote
sequence. -/
def winners (o : Outcome) (p : Poll) : List (Nat × Vote) :=
  p.votes.enum.filter (fun rv => isWinning o rv.2)

/-- Modelled from the spec: the weight of a winning vote in the distribution, its
stake weight at vote time times the early-voter factor of its position. -/
def shareWeight (bonus : Nat → Nat) (rv : Nat × Vote) : Nat :=
  rv.2.stakeWeightAtVote * bonus rv.1

/-- Modelled from the spec: the total weight of the winning side. -/
def totalWinningWeight (bonus : Nat → Nat) (o : Outcome) (p : Poll) : Nat :=
  ((winners o p).map (shareWeight bonus)).sum

/-- Modelled from the spec: the distribution of section 4.3. Each winning vote gets
`totalReward` scaled by its share of the winning weight, rounded down. -/
def distribute (bonus : Nat → Nat) (assessmentId : Nat) (a : Assessment) (o : Outcome) :
    List RewardEntry :=
  (winners o a.poll).map (fun rv =>
    { member := rv.2.voter
      assessmentId := assessmentId
      amount := a.totalReward * shareWeight bonus rv / totalWinningWeight bonus o a.poll
      withdrawn := false
      reversed := false })

/-- Modelled from the spec: `finalize(assessmentId)` of section 4.2 at time `now`,
crediting the rewards of section 4.3. A second call is a no-op. -/
def finalize (env : Env) (s : State) (assessmentId now : Nat) : Except Error State :=
  match s.assessments[assessmentId]? with
  | none => .error .AssessmentNotFound
  | some a =>
    match a.poll.outcome with
    | some _ => .ok s
    | none =>
      if now < a.poll.«end» then .error .PollNotEnded
      else
        let o := leadingSide a.poll.accepted a.poll.denied
        .ok { s with
              assessments :=
                s.assessments.set assessmentId { a with poll := { a.poll with outcome := some o } }
              rewards := s.rewards ++
                distribute (env.bonusFactor s.params.earlyBonusDecay) assessmentId a o }

/-- Modelled from the spec: `getRewards(member)` of section 4.3, the member's
unclaimed total. -/
def getRewards (s : State) (member : Nat) : Nat :=
  ((s.rewards.filter (fun e => e.member == member && !e.withdrawn && !e.reversed)).map
    (fun e => e.amount)).sum

/-- Modelled from the spec: `withdrawRewards(member)` of section 4.3; the result is
the new state and the amount transferred, zero once nothing is left to claim. -/
def withdrawRewards (env : Env) (s : State) (member : Nat) : Except Error (State × Nat) :=
  if getRewards s member = 0 then .ok (s, 0)
  else if !env.transferOut member (getRewards s member) then .error .ExternalFailure
  else
    .ok ({ s with
           rewards := s.rewards.map
             (fun e => if e.member == member && !e.withdrawn && !e.reversed
                       then { e with withdrawn := true } else e) },
         getRewards s member)

/-- Modelled from the spec: every reward ever credited to voters for one assessment,
whether or not fraud resolution has reversed it since. -/
def creditedFor (rewards : List RewardEntry) (assessmentId : Nat) : Nat :=
  ((rewards.filter (fun e => e.assessmentId == assessmentId)).map (fun e => e.amount)).sum

/-- Modelled from the spec: the rewards of one assessment that have been transferred
out to voters. -/
def paidOutFor (rewards : List RewardEntry) (assessmentId : Nat) : Nat :=
  ((rewards.filter (fun e => e.assessmentId == assessmentId && e.withdrawn)).map
    (fun e => e.amount)).sum

/-- Modelled from the spec: the rewards paid for one assessment as the reward book
stands: the rewards credited for it that fraud resolution has not reversed (section
4.4 takes a reversed reward back, as a debt when it was already withdrawn). -/
def rewardsFor (rewards : List RewardEntry) (assessmentId : Nat) : Nat :=
  ((rewards.filter (fun e => e.assessmentId == assessmentId && !e.reversed)).map
    (fun e => e.amount)).sum

/-- Modelled from the spec: the rewards of one assessment that fraud resolution has
reversed. -/
def reversedFor (rewards : List RewardEntry) (assessmentId : Nat) : Nat :=
  ((rewards.filter (fun e => e.assessmentId == assessmentId && e.reversed)).map
    (fun e => e.amount)).sum

/-- Modelled from the spec: the part of `totalReward` that is no voter's reward,
retained by the protocol. -/
def retainedFor (s : State) (assessmentId : Nat) : Nat :=
  match s.assessments[assessmentId]? with
  | some a => a.totalReward - rewardsFor s.rewards assessmentId
  | none => 0

/-! ### Fraud resolution -/

/-- Modelled from the spec: `submitFraud(accusedVoter, proof)` of section 4.4, sent by
`caller`: the governance collaborator authorizes the submission and the proof verifier
validates the proof; the result is the new state and the index of the fraud attempt
created. -/
def submitFraud (env : Env) (caller : Nat) (s : State) (accusedVoter proof now : Nat) :
    Except Error (State × Nat) :=
  if !env.isGovernance caller then .error .NotAuthorized
  else if env.verifyProof accusedVoter proof then
    .ok ({ s with
           fraudAttempts := s.fraudAttempts ++
             [{ accusedVoter := accusedVoter, assessmentIds := [], reportedAt := now }] },
         s.fraudAttempts.length)
  else .error .ProofRejected

/-- Modelled from the spec: invalidating the accused voter's vote, its weight taken
off the tally of its side (section 4.4). -/
def invalidateVote (accused : Nat) (p : Poll) : Poll :=
  match p.votes.find? (fun v => v.voter == accused && !v.invalidated) with
  | none => p
  | some v =>
    { p with
      votes := p.votes.map
        (fun w => if w.voter == accused then { w with invalidated := true } else w)
      accepted := if v.accepted then p.accepted - v.stakeWeightAtVote else p.accepted
      denied := if v.accepted then p.denied else p.denied - v.stakeWeightAtVote }

/-- Modelled from the spec: one assessment of `processFraud` (section 4.4). The
accused's vote is invalidated; a finalized poll is recomputed; when the outcome flips
the rewards of the former winners are reversed and the distribution re-run for the
new winning side, otherwise only the accused's own reward is removed; each reversal
is left in the outbox. -/
def processFraudOne (env : Env) (now attempt : Nat) (s : State) (assessmentId : Nat) :
    Except Error State :=
  match s.fraudAttempts[attempt]? with
  | none => .error .FraudAttemptNotFound
  | some f =>
    match s.assessments[assessmentId]? with
    | none => .error .AssessmentNotFound
    | some a =>
      if s.fraudAttempts.any
          (fun g => g.accusedVoter == f.accusedVoter && g.assessmentIds.contains assessmentId) then
        .error .FraudAlreadyProcessed
      else if a.poll.«end» + env.fraudWindow < now then
        .error .AssessmentNotEligibleForFraudCheck
      else
        let attempts := s.fraudAttempts.set attempt
          { f with assessmentIds := f.assessmentIds ++ [assessmentId] }
        let poll1 := invalidateVote f.accusedVoter a.poll
        match a.poll.outcome with
        | none =>
          .ok { s with
                assessments := s.assessments.set assessmentId { a with poll := poll1 }
                fraudAttempts := attempts }
        | some o =>
          let o1 := leadingSide poll1.accepted poll1.denied
          let a1 : Assessment := { a with poll := { poll1 with outcome := some o1 } }
          let reversed : RewardEntry → Bool := fun e =>
            e.assessmentId == assessmentId && !e.reversed
              && (o1 != o || e.member == f.accusedVoter)
          .ok { s with
                assessments := s.assessments.set assessmentId a1
                rewards :=
                  s.rewards.map (fun e => if reversed e then { e with reversed := true } else e)
                    ++ (if o1 != o then
                          distribute (env.bonusFactor s.params.earlyBonusDecay) assessmentId a1 o1
                        else [])
                reversals := s.reversals ++
                  (s.rewards.filter reversed).map
                    (fun e => { member := e.member, assessmentId := e.assessmentId,
                                amount := e.amount })
                fraudAttempts := attempts }

/-- Modelled from the spec: `processFraud(fraudAttempt, assessmentIds)` of section
4.4 at time `now`; the assessments are processed in ascending id order, and one
failure rejects the whole call. -/
def processFraud (env : Env) (s : State) (attempt : Nat) (assessmentIds : List Nat) (now : Nat) :
    Except Error State :=
  (assessmentIds.insertionSort (fun a b => a ≤ b)).foldlM (processFraudOne env now attempt) s

/-! ### The state machine -/

/-- Modelled from the spec: one atomic operation of the engine (section 5). `ledger`
stands for the stake-ledger operations `requestUnstake` and `withdrawUnstaked`, which
touch nothing but the member records. -/
inductive Step (env : Env) : State → State → Prop where
  | updateUintParameters (s s1 : State) (caller : Nat) (key : String) (value : Nat) :
      updateUintParameters env caller s key value = .ok s1 → Step env s s1
  | stake (s s1 : State) (member amount : Nat) :
      stake env s member amount = .ok s1 → Step env s s1
  | ledger (s : State) (members : List Member) : Step env s { s with members := members }
  | startAssessment (s : State) (externalRef rewardBudget now : Nat) :
      Step env s (startAssessment s externalRef rewardBudget now).1
  | castVote (s s1 : State) (member assessmentId : Nat) (accepted : Bool) (now : Nat) :
      castVote env s member assessmentId accepted now = .ok s1 → Step env s s1
  | finalize (s s1 : State) (assessmentId now : Nat) :
      finalize env s assessmentId now = .ok s1 → Step env s s1
  | withdrawRewards (s s1 : State) (member amount : Nat) :
      withdrawRewards env s member = .ok (s1, amount) → Step env s s1
  | submitFraud (s s1 : State) (caller accusedVoter proof now attempt : Nat) :
      submitFraud env caller s accusedVoter proof now = .ok (s1, attempt) → Step env s s1
  | processFraud (s s1 : State) (attempt : Nat) (assessmentIds : List Nat) (now : Nat) :
      processFraud env s attempt assessmentIds now = .ok s1 → Step env s s1

/-- Modelled from the spec: the states the engine can be in, starting from `init`. -/
inductive Reachable (env : Env) : State → Prop where
  | init (params : ParameterTable) : Reachable env (init params)
  | step (s s1 : State) : Reachable env s → Step env s s1 → Reachable env s1

/-- The bookkeeping facts every reachable state satisfies: rewards refer to existing
assessments, an assessment that is not finalized has no reward, the rewards of an
assessment that are not reversed sum to at most its `totalReward`, and a stored
outcome is the leading side of the stored tallies. -/
structure Consistent (s : State) : Prop where
  ids : ∀ e ∈ s.rewards, e.assessmentId < s.assessments.length
  unfinalized : ∀ (i : Nat) (a : Assessment), s.assessments[i]? = some a →
    a.poll.outcome = none → ∀ e ∈ s.rewards, e.assessmentId ≠ i
  bounded : ∀ (i : Nat) (a : Assessment), s.assessments[i]? = some a →
    rewardsFor s.rewards i ≤ a.totalReward
  outcome : ∀ (i : Nat) (a : Assessment) (o : Outcome), s.assessments[i]? = some a →
    a.poll.outcome = some o → o = leadingSide a.poll.accepted a.poll.denied

end AssessmentEngine

/-! ## The worked scenarios of the specification (section 8) -/

namespace AssessmentEngine

/-- One day, in seconds. -/
def day : Nat := 86400

/-- A sample decoding of parameter keys, each identifier written as the operator
script writes its key: padded to 8 bytes and hex-encoded. -/
def sampleRecognize (key : String) : Option ParameterId :=
  if key = SetMinPoolEth.hex (SetMinPoolEth.padEnd (SetMinPoolEth.ofAscii "MIN_STK") 8 [0]) then
    some .minimumStake
  else if key = SetMinPoolEth.hex (SetMinPoolEth.padEnd (SetMinPoolEth.ofAscii "LOCK_PER") 8 [0]) then
    some .unstakeLockPeriod
  else if key = SetMinPoolEth.hex (SetMinPoolEth.padEnd (SetMinPoolEth.ofAscii "VOTE_WIN") 8 [0]) then
    some .votingWindow
  else if key = SetMinPoolEth.hex (SetMinPoolEth.padEnd (SetMinPoolEth.ofAscii "RWD_RAT") 8 [0]) then
    some .rewardRatio
  else if key = SetMinPoolEth.hex (SetMinPoolEth.padEnd (SetMinPoolEth.ofAscii "BNS_DEC") 8 [0]) then
    some .earlyBonusDecay
  else none

/-- Collaborators that accept every member, transfer and proof, with account 0 as
governance; the first voter's factor is twice the factor of the later ones; votes in
the last day before the end can extend the poll by a day; fraud can be checked for
thirty days after the end. -/
def scenarioEnv : Env :=
  { isMember := fun _ => true
    isGovernance := fun caller => caller == 0
    transferIn := fun _ _ => true
    transferOut := fun _ _ => true
    verifyProof := fun _ _ => true
    recognize := sampleRecognize
    bonusFactor := fun _ rank => if rank = 0 then 2 else 1
    flipWindow := day
    flipExtension := day
    fraudWindow := 30 * day }

/-- A voting window of 7 days, as in the scenarios. -/
def scenarioParams : ParameterTable :=
  { minimumStake := 10, unstakeLockPeriod := 30 * day, votingWindow := 7 * day,
    rewardRatio := 0, earlyBonusDecay := 0 }

/-- The state after a call that also returns a value. -/
def stateAfterWith (s : State) (r : Except Error (State × Nat)) : State :=
  match r with
  | .ok (s1, _) => s1
  | .error _ => s

/-- Voter X (member 1) has staked 100. -/
def scenarioStakedX : State :=
  stateAfter (init scenarioParams) (stake scenarioEnv (init scenarioParams) 1 100)

/-- Voter Y (member 2) has staked 50. -/
def scenarioStaked : State :=
  stateAfter scenarioStakedX (stake scenarioEnv scenarioStakedX 2 50)

/-- The assessment is created at `t = 0` with `totalReward = 1000`. -/
def scenarioStarted : State := (startAssessment scenarioStaked 0 1000 0).1

/-- X votes accept at `t = 0`. -/
def scenarioVotedX : State :=
  stateAfter scenarioStarted (castVote scenarioEnv scenarioStarted 1 0 true 0)

/-- Y votes deny at `t = 1 day`. -/
def scenarioVoted : State :=
  stateAfter scenarioVotedX (castVote scenarioEnv scenarioVotedX 2 0 false day)

/-- The poll is finalized at `t = 7 days`. -/
def scenarioFinalized : State :=
  stateAfter scenarioVoted (finalize scenarioEnv scenarioVoted 0 (7 * day))

/-- X withdraws the reward. -/
def scenarioWithdrawnX : State :=
  stateAfterWith scenarioFinalized (withdrawRewards scenarioEnv scenarioFinalized 1)

/-- At `t = 8 days` a fraud proof against X is accepted. -/
def scenarioReported : State :=
  stateAfterWith scenarioWithdrawnX (submitFraud scenarioEnv 0 scenarioWithdrawnX 1 0 (8 * day))

/-- The fraud attempt is processed for the assessment. -/
def scenarioAfterFraud : State :=
  stateAfter scenarioReported (processFraud scenarioEnv scenarioReported 0 [0] (8 * day))

/-- Y withdraws the reward of the recomputed distribution. -/
def scenarioWithdrawnY : State :=
  stateAfterWith scenarioAfterFraud (withdrawRewards scenarioEnv scenarioAfterFraud 2)

end AssessmentEngine

/-! ## Properties of `set_min_pool_eth.js` -/

namespace SetMinPoolEth

theorem utf8OfCodePoint_ascii (u : Nat) (h : u < 128) : utf8OfCodePoint u = [u] := by
  unfold utf8OfCodePoint
  rw [if_pos (by omega)]

theorem bufferFrom_cons_ascii (u : Nat) (rest : JsString) (h : u < 128) :
    bufferFrom (u :: rest) = u :: bufferFrom rest := by
  have h1 : ¬ (0xD800 ≤ u ∧ u < 0xE000) := by omega
  have h2 : ¬ (0xD800 ≤ u ∧ u < 0xDC00) := by omega
  have h3 : ¬ (0xDC00 ≤ u ∧ u < 0xE000) := by omega
  cases rest with
  | nil => simp only [bufferFrom, if_neg h1, utf8OfCodePoint_ascii u h]
  | cons l rest =>
    simp only [bufferFrom, if_neg h2, if_neg h3, utf8OfCodePoint_ascii u h]
    rfl

theorem bufferFrom_ascii (s : JsString) (h : ∀ u ∈ s, u < 128) : bufferFrom s = s := by
  induction s with
  | nil => rfl
  | cons u rest ih =>
    rw [bufferFrom_cons_ascii u rest (h u (List.mem_cons_self _ _)),
      ih (fun v hv => h v (List.mem_cons_of_mem _ hv))]

theorem flatten_replicate_singleton (n : Nat) (a : Nat) :
    (List.replicate n [a]).flatten = List.replicate n a := by
  induction n with
  | zero => rfl
  | succ k ih => simp [List.replicate_succ, ih]

theorem padEnd_nul (s : JsString) (n : Nat) :
    padEnd s n [0] = s ++ List.replicate (n - s.length) 0 := by
  unfold padEnd
  by_cases h : n ≤ s.length
  · rw [if_pos h, Nat.sub_eq_zero_of_le h]; simp
  · rw [if_neg h, if_neg (by simp), flatten_replicate_singleton]
    congr 1
    exact List.take_of_length_le (by simp)

theorem hexDigit_lower (n : Nat) (h : n < 16) : isLowerHexDigit (hexDigit n) = true := by
  interval_cases n <;> decide

theorem toStringHex_length (bytes : List Nat) : (toStringHex bytes).length = 2 * bytes.length := by
  induction bytes with
  | nil => rfl
  | cons b bs ih =>
    simp only [toStringHex, List.flatMap_cons, List.length_append, List.length_cons] at ih ⊢
    simp only [hexByte, List.length_cons, List.length_nil]
    omega

theorem toStringHex_lower (bytes : List Nat) :
    ∀ c ∈ toStringHex bytes, isLowerHexDigit c = true := by
  intro c hc
  simp only [toStringHex, List.mem_flatMap, hexByte, List.mem_cons, List.mem_singleton,
    List.not_mem_nil, or_false] at hc
  obtain ⟨b, _, rfl | rfl⟩ := hc
  · exact hexDigit_lower _ (Nat.mod_lt _ (by norm_num))
  · exact hexDigit_lower _ (Nat.mod_lt _ (by norm_num))

/-- C5. For every ASCII string `s` of at most 8 units, `hex(s.padEnd(8, '\0'))` is
`0x` followed by the hex digits of exactly 8 bytes, the bytes of `s` and then zero
bytes: 18 characters in all, the 16 after `0x` lowercase hexadecimal digits. The key
the script sends for `MIN_ETH` is `0x4d494e5f45544800`. -/
theorem hex_padEnd_fixed_width (s : JsString) (hascii : ∀ u ∈ s, u < 128)
    (hlen : s.length ≤ 8) :
    hex (padEnd s 8 [0])
        = "0x" ++ String.mk (toStringHex (s ++ List.replicate (8 - s.length) 0))
      ∧ (s ++ List.replicate (8 - s.length) 0).length = 8
      ∧ (hex (padEnd s 8 [0])).data.take 2 = ['0', 'x']
      ∧ ((hex (padEnd s 8 [0])).data.drop 2).length = 16
      ∧ (∀ c ∈ (hex (padEnd s 8 [0])).data.drop 2, isLowerHexDigit c = true)
      ∧ minEthKey = "0x4d494e5f45544800" := by
  have hpad : padEnd s 8 [0] = s ++ List.replicate (8 - s.length) 0 := padEnd_nul s 8
  have hasc : ∀ u ∈ s ++ List.replicate (8 - s.length) 0, u < 128 := by
    intro u hu
    rcases List.mem_append.mp hu with h | h
    · exact hascii u h
    · rw [List.eq_of_mem_replicate h]; norm_num
  have hbuf := bufferFrom_ascii _ hasc
  have hl : (s ++ List.replicate (8 - s.length) 0).length = 8 := by
    simp only [List.length_append, List.length_replicate]; omega
  have hdata : (hex (padEnd s 8 [0])).data
      = '0' :: 'x' :: toStringHex (s ++ List.replicate (8 - s.length) 0) := by
    rw [hex, hpad, hbuf]; rfl
  refine ⟨by rw [hex, hpad, hbuf], hl, by rw [hdata]; rfl, ?_, ?_, by decide⟩
  · rw [hdata]
    simp only [List.drop_succ_cons, List.drop_zero]
    rw [toStringHex_length, hl]
  · rw [hdata]
    simp only [List.drop_succ_cons, List.drop_zero]
    exact toStringHex_lower _

/-- The key the script sends for `MIN_ETH`, an instance of `hex_padEnd_fixed_width`. -/
theorem hex_padEnd_fixed_width_min_eth :
    (∀ u ∈ ofAscii "MIN_ETH", u < 128) ∧ (ofAscii "MIN_ETH").length ≤ 8
      ∧ hex (padEnd (ofAscii "MIN_ETH") 8 [0]) = "0x4d494e5f45544800"
      ∧ ((hex (padEnd (ofAscii "MIN_ETH") 8 [0])).data.drop 2).length = 16 :=
  ⟨by decide, by decide,
    (hex_padEnd_fixed_width (ofAscii "MIN_ETH") (by decide) (by decide)).2.2.2.2.2,
    (hex_padEnd_fixed_width (ofAscii "MIN_ETH") (by decide) (by decide)).2.2.2.1⟩

end SetMinPoolEth

/-! ## Properties of `buyCover.js` -/

namespace BuyCover

/-- C8. `coverToCoverDetailsArray(cover)` is the five-element list amount, price,
priceNXM, expireTime, generationTime; covers that agree on these five fields give
the same list; the cover is left as it was. -/
theorem coverToCoverDetailsArray_five_fields {V : Type} (cover : Obj V) :
    (coverToCoverDetailsArray cover).1.length = 5
      ∧ (coverToCoverDetailsArray cover).1
          = [cover "amount", cover "price", cover "priceNXM", cover "expireTime",
             cover "generationTime"]
      ∧ (∀ other : Obj V,
          (other "amount" = cover "amount" ∧ other "price" = cover "price"
            ∧ other "priceNXM" = cover "priceNXM" ∧ other "expireTime" = cover "expireTime"
            ∧ other "generationTime" = cover "generationTime") →
          (coverToCoverDetailsArray other).1 = (coverToCoverDetailsArray cover).1)
      ∧ (coverToCoverDetailsArray cover).2 = cover := by
  refine ⟨rfl, rfl, ?_, rfl⟩
  rintro other ⟨h1, h2, h3, h4, h5⟩
  simp only [coverToCoverDetailsArray, h1, h2, h3, h4, h5]

/-- C7, as stated, fails. `buyCover` reads `cover` again after the `await`: when the
caller changes the price from 5 to 999 and the period from 61 to 62 while the quote is
being signed, the quote is signed for details `[1000, 5, ...]` and period 61, and
`makeCoverBegin` is sent details `[1000, 999, ...]`, period 62 and value 999. -/
theorem buyCover_submits_unsigned_data :
    (buyCover sampleGetSignedQuote repriceWhileSuspended sampleCover 7 sampleQt).quote.coverDetails
        = [1000, 5, 70, 9000, 8000]
      ∧ (buyCover sampleGetSignedQuote repriceWhileSuspended sampleCover 7 sampleQt).quote.period
        = 61
      ∧ (buyCover sampleGetSignedQuote repriceWhileSuspended sampleCover 7 sampleQt).result
        = .ok { contractAddress := 3735928559, currency := 4543560,
                coverDetails := [1000, 999, 70, 9000, 8000], period := 62,
                v := 27, r := 111, s := 222, «from» := 7, value := 999 } := by
  refine ⟨by decide, by decide, ?_⟩
  rfl

theorem coverToCoverDetailsArray_congr {V : Type} (c1 c2 : Obj V)
    (h : ∀ k ∈ coverFields, c1 k = c2 k) :
    (coverToCoverDetailsArray c1).1 = (coverToCoverDetailsArray c2).1 := by
  simp only [coverToCoverDetailsArray, h "amount" (by decide), h "price" (by decide),
    h "priceNXM" (by decide), h "expireTime" (by decide), h "generationTime" (by decide)]

/-- What `buyCover` submits when the awaited quote is a value that can be indexed. -/
theorem buyCover_of_indexable {V : Type}
    (getSignedQuote : GetSignedQuoteCall V → Awaited V) (whileSuspended : Obj V → Obj V)
    (cover : Obj V) (coverHolder : V) (qt : Obj V) (vrsData : Nat → V)
    (hquote : getSignedQuote (buyCover getSignedQuote whileSuspended cover coverHolder qt).quote
      = .indexable vrsData) :
    (buyCover getSignedQuote whileSuspended cover coverHolder qt).quote
        = { coverDetails := [cover "amount", cover "price", cover "priceNXM",
                             cover "expireTime", cover "generationTime"]
            currency := cover "currency"
            period := cover "period"
            contractAddress := cover "contractAddress"
            quotationAddress := qt "address" }
      ∧ ∃ call, (buyCover getSignedQuote whileSuspended cover coverHolder qt).result = .ok call
        ∧ call.v = vrsData 0 ∧ call.r = vrsData 1 ∧ call.s = vrsData 2
        ∧ call.«from» = coverHolder
        ∧ call.coverDetails
            = [whileSuspended cover "amount", whileSuspended cover "price",
               whileSuspended cover "priceNXM", whileSuspended cover "expireTime",
               whileSuspended cover "generationTime"]
        ∧ call.currency = whileSuspended cover "currency"
        ∧ call.period = whileSuspended cover "period"
        ∧ call.contractAddress = whileSuspended cover "contractAddress"
        ∧ call.value = whileSuspended cover "price"
        ∧ call.coverDetails.get? 1 = some call.value
        ∧ ((∀ k ∈ coverFields, whileSuspended cover k = cover k) →
            call.coverDetails
                = (buyCover getSignedQuote whileSuspended cover coverHolder qt).quote.coverDetails
              ∧ call.currency
                = (buyCover getSignedQuote whileSuspended cover coverHolder qt).quote.currency
              ∧ call.period
                = (buyCover getSignedQuote whileSuspended cover coverHolder qt).quote.period
              ∧ call.contractAddress
                = (buyCover getSignedQuote whileSuspended cover coverHolder qt).quote.contractAddress
              ∧ call.value = cover "price") := by
  refine ⟨rfl, ?_⟩
  have hq : getSignedQuote
      { coverDetails := (coverToCoverDetailsArray cover).1
        currency := cover "currency"
        period := cover "period"
        contractAddress := cover "contractAddress"
        quotationAddress := qt "address" } = .indexable vrsData := hquote
  refine ⟨{ contractAddress := whileSuspended cover "contractAddress"
            currency := whileSuspended cover "currency"
            coverDetails := (coverToCoverDetailsArray (whileSuspended cover)).1
            period := whileSuspended cover "period"
            v := vrsData 0, r := vrsData 1, s := vrsData 2
            «from» := coverHolder
            value := whileSuspended cover "price" }, ?_, rfl, rfl, rfl, rfl, rfl, rfl, rfl, rfl,
          rfl, rfl, ?_⟩
  · simp only [buyCover, coverToCoverDetailsArray, hq]
    simp only [coverToCoverDetailsArray] at hq
    rw [hq]
  · intro hsame
    refine ⟨coverToCoverDetailsArray_congr _ _ hsame, hsame "currency" (by decide),
      hsame "period" (by decide), hsame "contractAddress" (by decide),
      hsame "price" (by decide)⟩

/-- When the quote is rejected, or resolves to `undefined` or `null`, `buyCover`
throws and submits nothing. -/
theorem buyCover_throws_without_quote {V : Type}
    (getSignedQuote : GetSignedQuoteCall V → Awaited V) (whileSuspended : Obj V → Obj V)
    (cover : Obj V) (coverHolder : V) (qt : Obj V) :
    (∀ reason,
        getSignedQuote (buyCover getSignedQuote whileSuspended cover coverHolder qt).quote
          = .rejected reason →
        (buyCover getSignedQuote whileSuspended cover coverHolder qt).result
          = .error (.rejection reason))
      ∧ (getSignedQuote (buyCover getSignedQuote whileSuspended cover coverHolder qt).quote
          = .nullish →
        (buyCover getSignedQuote whileSuspended cover coverHolder qt).result
          = .error .typeError) := by
  constructor
  · intro reason h
    have hq : getSignedQuote
        { coverDetails := (coverToCoverDetailsArray cover).1
          currency := cover "currency"
          period := cover "period"
          contractAddress := cover "contractAddress"
          quotationAddress := qt "address" } = .rejected reason := h
    simp only [coverToCoverDetailsArray] at hq
    simp only [buyCover, coverToCoverDetailsArray, hq]
  · intro h
    have hq : getSignedQuote
        { coverDetails := (coverToCoverDetailsArray cover).1
          currency := cover "currency"
          period := cover "period"
          contractAddress := cover "contractAddress"
          quotationAddress := qt "address" } = .nullish := h
    simp only [coverToCoverDetailsArray] at hq
    simp only [buyCover, coverToCoverDetailsArray, hq]

/-- C7, amended. `buyCover` always calls `getSignedQuote` with the cover's details,
currency, period and contract address as they stand at the call. Whenever the awaited
quote is a value that can be indexed, it submits one `makeCoverBegin` call: the three
signature parts are `vrsData[0]`, `vrsData[1]`, `vrsData[2]` in that order, the
sender is the cover holder, the details, currency, period and contract address are
those of the cover as it stands when `buyCover` resumes, and the value sent is that
cover's price, element 1 of the submitted details. If the fields `buyCover` reads were
not changed while it was suspended, the submitted details, currency, period and
contract address are exactly those passed to `getSignedQuote`, and the value is
`cover.price`. When the quote is rejected, or resolves to `undefined` or `null`,
`buyCover` throws and submits nothing. -/
theorem buyCover_submits_signed_data {V : Type}
    (getSignedQuote : GetSignedQuoteCall V → Awaited V) (whileSuspended : Obj V → Obj V)
    (cover : Obj V) (coverHolder : V) (qt : Obj V) :
    (buyCover getSignedQuote whileSuspended cover coverHolder qt).quote
        = { coverDetails := [cover "amount", cover "price", cover "priceNXM",
                             cover "expireTime", cover "generationTime"]
            currency := cover "currency"
            period := cover "period"
            contractAddress := cover "contractAddress"
            quotationAddress := qt "address" }
      ∧ (∀ vrsData : Nat → V,
          getSignedQuote (buyCover getSignedQuote whileSuspended cover coverHolder qt).quote
            = .indexable vrsData →
          ∃ call,
            (buyCover getSignedQuote whileSuspended cover coverHolder qt).result = .ok call
              ∧ call.v = vrsData 0 ∧ call.r = vrsData 1 ∧ call.s = vrsData 2
              ∧ call.«from» = coverHolder
              ∧ call.coverDetails
                  = [whileSuspended cover "amount", whileSuspended cover "price",
                     whileSuspended cover "priceNXM", whileSuspended cover "expireTime",
                     whileSuspended cover "generationTime"]
              ∧ call.currency = whileSuspended cover "currency"
              ∧ call.period = whileSuspended cover "period"
              ∧ call.contractAddress = whileSuspended cover "contractAddress"
              ∧ call.value = whileSuspended cover "price"
              ∧ call.coverDetails.get? 1 = some call.value
              ∧ ((∀ k ∈ coverFields, whileSuspended cover k = cover k) →
                  call.coverDetails
                      = (buyCover getSignedQuote whileSuspended cover coverHolder
                          qt).quote.coverDetails
                    ∧ call.currency
                      = (buyCover getSignedQuote whileSuspended cover coverHolder
                          qt).quote.currency
                    ∧ call.period
                      = (buyCover getSignedQuote whileSuspended cover coverHolder
                          qt).quote.period
                    ∧ call.contractAddress
                      = (buyCover getSignedQuote whileSuspended cover coverHolder
                          qt).quote.contractAddress
                    ∧ call.value = cover "price"))
      ∧ (∀ reason,
          getSignedQuote (buyCover getSignedQuote whileSuspended cover coverHolder qt).quote
            = .rejected reason →
          (buyCover getSignedQuote whileSuspended cover coverHolder qt).result
            = .error (.rejection reason))
      ∧ (getSignedQuote (buyCover getSignedQuote whileSuspended cover coverHolder qt).quote
            = .nullish →
          (buyCover getSignedQuote whileSuspended cover coverHolder qt).result
            = .error .typeError) :=
  ⟨rfl,
    fun vrsData hquote =>
      (buyCover_of_indexable getSignedQuote whileSuspended cover coverHolder qt vrsData
        hquote).2,
    (buyCover_throws_without_quote getSignedQuote whileSuspended cover coverHolder qt).1,
    (buyCover_throws_without_quote getSignedQuote whileSuspended cover coverHolder qt).2⟩

/-- A cover left alone while the quote `[27, 111, 222]` is signed: the signed data are
submitted, with the signature parts in order. -/
theorem buyCover_submits_signed_data_sample :
    ∃ call, (buyCover sampleGetSignedQuote (fun c => c) sampleCover 7 sampleQt).result = .ok call
      ∧ call.v = 27 ∧ call.r = 111 ∧ call.s = 222
      ∧ call.coverDetails = [1000, 5, 70, 9000, 8000]
      ∧ call.coverDetails
          = (buyCover sampleGetSignedQuote (fun c => c) sampleCover 7 sampleQt).quote.coverDetails
      ∧ call.period = 61 ∧ call.value = 5 := by
  obtain ⟨call, h1, h2, h3, h4, _, h5, _, h6, _, h7, _, h8⟩ :=
    (buyCover_submits_signed_data sampleGetSignedQuote (fun c => c) sampleCover 7
      sampleQt).2.1 (arrayElement 0 [27, 111, 222]) rfl
  exact ⟨call, h1, h2.trans (by decide), h3.trans (by decide), h4.trans (by decide),
    h5.trans (by decide), (h8 (fun _ _ => rfl)).1, h6.trans (by decide),
    h7.trans (by decide)⟩

end BuyCover

/-! ## Properties of the Assessment test suite -/

namespace AssessmentSuite

/-- C6, as stated, fails: `finalize` (like `requestUnstake` and `withdrawUnstaked`) is
an operation of the design without a sub-suite of that name, and the registered
sub-suite `unstake` is not named after an operation of the design. -/
theorem subSuites_not_exactly_specOperations :
    ("finalize" ∈ specOperations ∧ "finalize" ∉ subSuites)
      ∧ ("unstake" ∈ subSuites ∧ "unstake" ∉ specOperations)
      ∧ ¬ ((∀ op ∈ specOperations, op ∈ subSuites) ∧ (∀ n ∈ subSuites, n ∈ specOperations)) := by
  decide

/-- C6, amended. The index registers exactly twelve sub-suites; the operations of the
design without a sub-suite of their name are exactly `requestUnstake`,
`withdrawUnstaked` and `finalize` (the other eleven have one), and the only
registered sub-suite not named after an operation of the design is `unstake`. -/
theorem subSuites_versus_specOperations :
    subSuites
        = ["stake", "unstake", "getRewards", "getPoll", "getAssessmentsCount",
           "getVoteCountOfAssessor", "withdrawRewards", "startAssessment", "castVote",
           "submitFraud", "processFraud", "updateUintParameters"]
      ∧ specOperations.filter (fun op => !subSuites.contains op)
        = ["requestUnstake", "withdrawUnstaked", "finalize"]
      ∧ (specOperations.filter (fun op => subSuites.contains op)).length = 11
      ∧ subSuites.filter (fun n => !specOperations.contains n) = ["unstake"] := by
  decide

end AssessmentSuite

namespace AssessmentSetup

theorem parseEther_10000 : parseEther "10000" = some (10000 * 10 ^ 18) := by
  decide

theorem enrollAndFund_eq (tc : Address) (c : Chain) (m : Address) :
    enrollAndFund tc c m
      = some (approve (mint (enrollMember c m 1) m (10000 * 10 ^ 18)) m tc (10000 * 10 ^ 18)) := by
  simp only [enrollAndFund, parseEther_10000]
  rfl

theorem setupMembers_cons (tc : Address) (m : Address) (ms : List Address) (c : Chain) :
    setupMembers tc (m :: ms) c
      = setupMembers tc ms
          (approve (mint (enrollMember c m 1) m (10000 * 10 ^ 18)) m tc (10000 * 10 ^ 18)) := by
  simp only [setupMembers, List.foldlM_cons, enrollAndFund_eq]
  rfl

/-- The loop leaves every account outside the list as it was. -/
theorem setupMembers_frame (tc : Address) (members : List Address) (c : Chain) :
    ∃ c', setupMembers tc members c = some c'
      ∧ ∀ a, a ∉ members →
          c'.balanceOf a = c.balanceOf a ∧ c'.memberRole a = c.memberRole a
            ∧ ∀ s, c'.allowance a s = c.allowance a s := by
  induction members generalizing c with
  | nil => exact ⟨c, rfl, fun a _ => ⟨rfl, rfl, fun _ => rfl⟩⟩
  | cons m ms ih =>
    obtain ⟨c', hc', hframe⟩ :=
      ih (approve (mint (enrollMember c m 1) m (10000 * 10 ^ 18)) m tc (10000 * 10 ^ 18))
    refine ⟨c', by rw [setupMembers_cons, hc'], ?_⟩
    intro a ha
    have hne : a ≠ m := fun h => ha (h ▸ List.mem_cons_self _ _)
    have hms : a ∉ ms := fun h => ha (List.mem_cons_of_mem _ h)
    obtain ⟨h1, h2, h3⟩ := hframe a hms
    refine ⟨?_, ?_, ?_⟩
    · rw [h1]; simp [approve, mint, enrollMember, hne]
    · rw [h2]; simp [approve, mint, enrollMember, hne]
    · intro s; rw [h3]; simp [approve, mint, enrollMember, hne]

/-- C9. For pairwise distinct members that start with a zero balance the member loop
of `setup` succeeds; afterwards every member is enrolled, holds exactly
`10000 * 10^18` units and has approved the token controller for exactly that amount
(allowance equal to balance), and an account outside the list has the balance, role
and allowances it had before. -/
theorem setupMembers_funds_each_member (tc : Address) (members : List Address) (c : Chain)
    (hdistinct : members.Nodup) (hzero : ∀ m ∈ members, c.balanceOf m = 0) :
    ∃ c', setupMembers tc members c = some c'
      ∧ (∀ m ∈ members,
          isMember c' m = true ∧ c'.memberRole m = 1
            ∧ c'.balanceOf m = 10000 * 10 ^ 18
            ∧ c'.allowance m tc = 10000 * 10 ^ 18
            ∧ c'.allowance m tc = c'.balanceOf m)
      ∧ (∀ a, a ∉ members →
          c'.balanceOf a = c.balanceOf a ∧ c'.memberRole a = c.memberRole a
            ∧ ∀ s, c'.allowance a s = c.allowance a s) := by
  induction members generalizing c with
  | nil => exact ⟨c, rfl, fun m hm => absurd hm (List.not_mem_nil m), fun a _ => ⟨rfl, rfl, fun _ => rfl⟩⟩
  | cons x xs ih =>
    obtain ⟨hx, hxs⟩ := List.nodup_cons.mp hdistinct
    have hzero1 : ∀ m ∈ xs,
        (approve (mint (enrollMember c x 1) x (10000 * 10 ^ 18)) x tc (10000 * 10 ^ 18)).balanceOf m
          = 0 := by
      intro m hm
      have hne : m ≠ x := fun h => hx (h ▸ hm)
      simp [approve, mint, enrollMember, hne, hzero m (List.mem_cons_of_mem _ hm)]
    obtain ⟨c', hc', hmem, _⟩ := ih _ hxs hzero1
    obtain ⟨c'', hc'', hframe⟩ := setupMembers_frame tc xs
      (approve (mint (enrollMember c x 1) x (10000 * 10 ^ 18)) x tc (10000 * 10 ^ 18))
    have hcc : c'' = c' := Option.some.inj (hc''.symm.trans hc')
    subst hcc
    refine ⟨c'', by rw [setupMembers_cons, hc'], ?_, ?_⟩
    · intro m hm
      rcases List.mem_cons.mp hm with rfl | hm
      · obtain ⟨h1, h2, h3⟩ := hframe m hx
        have hb : c''.balanceOf m = 10000 * 10 ^ 18 := by
          rw [h1]; simp [approve, mint, enrollMember, hzero m (List.mem_cons_self _ _)]
        have ha : c''.allowance m tc = 10000 * 10 ^ 18 := by
          rw [h3]; simp [approve]
        have hr : c''.memberRole m = 1 := by
          rw [h2]; simp [approve, mint, enrollMember]
        exact ⟨by simp [isMember, hr], hr, hb, ha, ha.trans hb.symm⟩
      · exact hmem m hm
    · intro a ha
      have hne : a ≠ x := fun h => ha (h ▸ List.mem_cons_self _ _)
      obtain ⟨h1, h2, h3⟩ := hframe a (fun h => ha (List.mem_cons_of_mem _ h))
      refine ⟨?_, ?_, ?_⟩
      · rw [h1]; simp [approve, mint, enrollMember, hne]
      · rw [h2]; simp [approve, mint, enrollMember, hne]
      · intro s; rw [h3]; simp [approve, mint, enrollMember, hne]

/-- A fresh deployment: no roles, no balances, no allowances. -/
theorem setupMembers_funds_each_member_three_accounts :
    [11, 12, 13].Nodup
      ∧ (∀ m ∈ [11, 12, 13], (Chain.mk (fun _ => 0) (fun _ => 0) 0 (fun _ _ => 0)).balanceOf m = 0)
      ∧ ∃ c', setupMembers 7 [11, 12, 13] (Chain.mk (fun _ => 0) (fun _ => 0) 0 (fun _ _ => 0))
            = some c'
          ∧ (∀ m ∈ [11, 12, 13],
              isMember c' m = true ∧ c'.memberRole m = 1
                ∧ c'.balanceOf m = 10000 * 10 ^ 18
                ∧ c'.allowance m 7 = 10000 * 10 ^ 18
                ∧ c'.allowance m 7 = c'.balanceOf m)
          ∧ (∀ a, a ∉ [11, 12, 13] →
              c'.balanceOf a = 0 ∧ c'.memberRole a = 0 ∧ ∀ s, c'.allowance a s = 0) :=
  ⟨by decide, by decide,
    setupMembers_funds_each_member 7 [11, 12, 13]
      (Chain.mk (fun _ => 0) (fun _ => 0) 0 (fun _ _ => 0)) (by decide) (by decide)⟩

end AssessmentSetup

/-! ## Properties of the assessment engine -/

namespace AssessmentEngine

/-! ### Parameter store -/

/-- C3. For every state, caller, value and key that `recognize` does not know,
`updateUintParameters` fails with `UnknownParameter`, and the state after the call,
its parameter table included, is the state before it. -/
theorem updateUintParameters_unknown_key (env : Env) (caller : Nat) (s : State) (key : String)
    (value : Nat) (hkey : env.recognize key = none) :
    updateUintParameters env caller s key value = .error .UnknownParameter
      ∧ (stateAfter s (updateUintParameters env caller s key value)).params = s.params
      ∧ stateAfter s (updateUintParameters env caller s key value) = s := by
  have h : updateUintParameters env caller s key value = .error .UnknownParameter := by
    simp only [updateUintParameters, hkey]
  exact ⟨h, by rw [h]; rfl, by rw [h]; rfl⟩

/-! ### Finalization -/

theorem finalize_of_finalized (env : Env) (s : State) (id now : Nat) (a : Assessment)
    (o : Outcome) (ha : s.assessments[id]? = some a) (ho : a.poll.outcome = some o) :
    finalize env s id now = .ok s := by
  simp only [finalize, ha, ho]

theorem finalize_of_open (env : Env) (s : State) (id now : Nat) (a : Assessment)
    (ha : s.assessments[id]? = some a) (ho : a.poll.outcome = none)
    (hend : a.poll.«end» ≤ now) :
    finalize env s id now
      = .ok { s with
              assessments := s.assessments.set id
                { a with poll :=
                    { a.poll with outcome := some (leadingSide a.poll.accepted a.poll.denied) } }
              rewards := s.rewards ++
                distribute (env.bonusFactor s.params.earlyBonusDecay) id a
                  (leadingSide a.poll.accepted a.poll.denied) } := by
  simp only [finalize, ha, ho, if_neg (Nat.not_lt.mpr hend)]

theorem lookup_lt {α : Type} (l : List α) (i : Nat) (a : α) (h : l[i]? = some a) :
    i < l.length := by
  by_contra hc
  rw [List.getElem?_eq_none (Nat.le_of_not_lt hc)] at h
  exact Option.noConfusion h

/-- C4. Finalization is idempotent. For every state and every assessment whose poll
has ended, `finalize` succeeds, and a second `finalize`, at whatever time, succeeds
and returns the very state the first one produced: the same stored outcome, the same
reward book. The rewards are credited once: by the first call when the poll was not
finalized before, and by neither call when it was. -/
theorem finalize_idempotent (env : Env) (s : State) (i now later : Nat) (a : Assessment)
    (ha : s.assessments[i]? = some a) (hend : a.poll.«end» ≤ now) :
    ∃ s1, finalize env s i now = .ok s1
      ∧ finalize env s1 i later = .ok s1
      ∧ stateAfter s1 (finalize env s1 i later) = s1
      ∧ getPoll (stateAfter s1 (finalize env s1 i later)) i = getPoll s1 i
      ∧ (stateAfter s1 (finalize env s1 i later)).rewards = s1.rewards
      ∧ (a.poll.outcome = none →
          s1.rewards = s.rewards ++
            distribute (env.bonusFactor s.params.earlyBonusDecay) i a
              (leadingSide a.poll.accepted a.poll.denied))
      ∧ (a.poll.outcome ≠ none → s1.rewards = s.rewards) := by
  have key : ∃ s1, finalize env s i now = .ok s1 ∧ finalize env s1 i later = .ok s1
      ∧ (a.poll.outcome = none →
          s1.rewards = s.rewards ++
            distribute (env.bonusFactor s.params.earlyBonusDecay) i a
              (leadingSide a.poll.accepted a.poll.denied))
      ∧ (a.poll.outcome ≠ none → s1.rewards = s.rewards) := by
    cases ho : a.poll.outcome with
    | some o =>
      exact ⟨s, finalize_of_finalized env s i now a o ha ho,
        finalize_of_finalized env s i later a o ha ho,
        fun hc => Option.noConfusion hc, fun _ => rfl⟩
    | none =>
      refine ⟨_, finalize_of_open env s i now a ha ho hend, ?_, fun _ => rfl,
        fun hc => absurd rfl hc⟩
      exact finalize_of_finalized env _ i later _ (leadingSide a.poll.accepted a.poll.denied)
        (List.getElem?_set_self (lookup_lt _ _ _ ha)) rfl
  obtain ⟨s1, h1, h2, h3, h4⟩ := key
  exact ⟨s1, h1, h2, by rw [h2]; rfl, by rw [h2]; rfl, by rw [h2]; rfl, h3, h4⟩

/-! ### Reward distribution -/

theorem sum_floor_shares_le {α : Type} (l : List α) (w : α → Nat) (T W : Nat) :
    (l.map (fun x => T * w x / W)).sum ≤ T * (l.map w).sum / W := by
  induction l with
  | nil => simp
  | cons x xs ih =>
    simp only [List.map_cons, List.sum_cons]
    calc T * w x / W + (xs.map (fun x => T * w x / W)).sum
        ≤ T * w x / W + T * (xs.map w).sum / W := Nat.add_le_add_left ih _
      _ ≤ (T * w x + T * (xs.map w).sum) / W := Nat.add_div_le_add_div _ _ _
      _ = T * (w x + (xs.map w).sum) / W := by rw [Nat.mul_add]

theorem sum_floor_shares_le_total {α : Type} (l : List α) (w : α → Nat) (T : Nat) :
    (l.map (fun x => T * w x / (l.map w).sum)).sum ≤ T := by
  refine le_trans (sum_floor_shares_le l w T _) ?_
  rcases Nat.eq_zero_or_pos (l.map w).sum with h | h
  · rw [h]; simp
  · rw [Nat.mul_div_cancel _ h]

theorem creditedFor_append (r1 r2 : List RewardEntry) (id : Nat) :
    creditedFor (r1 ++ r2) id = creditedFor r1 id + creditedFor r2 id := by
  simp only [creditedFor, List.filter_append, List.map_append, List.sum_append]

theorem creditedFor_nil (id : Nat) : creditedFor [] id = 0 := rfl

theorem creditedFor_eq_zero (rewards : List RewardEntry) (id : Nat)
    (h : ∀ e ∈ rewards, e.assessmentId ≠ id) : creditedFor rewards id = 0 := by
  induction rewards with
  | nil => rfl
  | cons e es ih =>
    have he : (e.assessmentId == id) = false := by
      simpa using h e (List.mem_cons_self _ _)
    simp only [creditedFor, List.filter_cons, he] at ih ⊢
    exact ih (fun x hx => h x (List.mem_cons_of_mem _ hx))

theorem creditedFor_map (rewards : List RewardEntry) (f : RewardEntry → RewardEntry) (id : Nat)
    (hf : ∀ e, (f e).assessmentId = e.assessmentId ∧ (f e).amount = e.amount) :
    creditedFor (rewards.map f) id = creditedFor rewards id := by
  induction rewards with
  | nil => rfl
  | cons e es ih =>
    simp only [creditedFor, List.map_cons, List.filter_cons, (hf e).1] at ih ⊢
    by_cases h : (e.assessmentId == id) = true
    · simp only [h, if_true, List.map_cons, List.sum_cons, (hf e).2, ih]
    · simp only [h, if_false, ih]
      simp [h, ih]

theorem distribute_assessmentId (bonus : Nat → Nat) (id : Nat) (a : Assessment) (o : Outcome) :
    ∀ e ∈ distribute bonus id a o, e.assessmentId = id := by
  intro e he
  simp only [distribute, List.mem_map] at he
  obtain ⟨rv, _, rfl⟩ := he
  rfl

theorem creditedFor_distribute (bonus : Nat → Nat) (id : Nat) (a : Assessment) (o : Outcome) :
    creditedFor (distribute bonus id a o) id
      = ((winners o a.poll).map
          (fun rv => a.totalReward * shareWeight bonus rv / totalWinningWeight bonus o a.poll)).sum := by
  have hall : (distribute bonus id a o).filter (fun e => e.assessmentId == id)
      = distribute bonus id a o := by
    rw [List.filter_eq_self]
    intro e he
    simp [distribute_assessmentId bonus id a o e he]
  rw [creditedFor, hall, distribute, List.map_map]
  rfl

/-- One run of the distribution never credits more than `totalReward`. -/
theorem creditedFor_distribute_le (bonus : Nat → Nat) (id : Nat) (a : Assessment) (o : Outcome) :
    creditedFor (distribute bonus id a o) id ≤ a.totalReward := by
  rw [creditedFor_distribute]
  exact sum_floor_shares_le_total (winners o a.poll) (shareWeight bonus) a.totalReward

theorem creditedFor_distribute_other (bonus : Nat → Nat) (id other : Nat) (a : Assessment)
    (o : Outcome) (h : other ≠ id) : creditedFor (distribute bonus id a o) other = 0 :=
  creditedFor_eq_zero _ _ (fun e he => by
    rw [distribute_assessmentId bonus id a o e he]; exact fun hc => h hc.symm)

theorem filterSum_map_le (p q : RewardEntry → Bool) (f : RewardEntry → RewardEntry)
    (rewards : List RewardEntry)
    (h : ∀ e, q (f e) = true → p e = true ∧ (f e).amount = e.amount) :
    (((rewards.map f).filter q).map (fun e => e.amount)).sum
      ≤ ((rewards.filter p).map (fun e => e.amount)).sum := by
  induction rewards with
  | nil => exact Nat.le_refl _
  | cons e es ih =>
    simp only [List.map_cons, List.filter_cons]
    by_cases hq : q (f e) = true
    · obtain ⟨hp, ha⟩ := h e hq
      simp only [hq, hp, if_true, List.map_cons, List.sum_cons, ha]
      exact Nat.add_le_add_left ih _
    · simp only [hq, if_false]
      by_cases hp : p e = true
      · simp only [hp, if_true, List.map_cons, List.sum_cons]
        exact le_trans ih (Nat.le_add_left _ _)
      · simp only [hp, if_false]
        exact ih

theorem filterSum_mono (p q : RewardEntry → Bool) (rewards : List RewardEntry)
    (h : ∀ e, q e = true → p e = true) :
    ((rewards.filter q).map (fun e => e.amount)).sum
      ≤ ((rewards.filter p).map (fun e => e.amount)).sum := by
  have := filterSum_map_le p q (fun e => e) rewards (fun e hq => ⟨h e hq, rfl⟩)
  simpa using this

theorem filterSum_eq_zero (p : RewardEntry → Bool) (rewards : List RewardEntry)
    (h : ∀ e ∈ rewards, p e = false) :
    ((rewards.filter p).map (fun e => e.amount)).sum = 0 := by
  rw [List.filter_eq_nil_iff.mpr (fun e he => by simp [h e he])]
  rfl

theorem rewardsFor_append (r1 r2 : List RewardEntry) (i : Nat) :
    rewardsFor (r1 ++ r2) i = rewardsFor r1 i + rewardsFor r2 i := by
  simp only [rewardsFor, List.filter_append, List.map_append, List.sum_append]

theorem rewardsFor_le_creditedFor (rewards : List RewardEntry) (i : Nat) :
    rewardsFor rewards i ≤ creditedFor rewards i :=
  filterSum_mono _ _ rewards (fun e he => by
    simp only [Bool.and_eq_true] at he
    exact he.1)

theorem rewardsFor_eq_zero (rewards : List RewardEntry) (i : Nat)
    (h : ∀ e ∈ rewards, e.assessmentId ≠ i) : rewardsFor rewards i = 0 :=
  filterSum_eq_zero _ rewards (fun e he => by
    have := h e he
    simp [this])

/-- Changing the `withdrawn` or `reversed` marks of rewards never adds to the rewards
of an assessment, as long as no reversed reward is restored. -/
theorem rewardsFor_map_le (rewards : List RewardEntry) (f : RewardEntry → RewardEntry) (i : Nat)
    (hf : ∀ e, (f e).assessmentId = e.assessmentId ∧ (f e).amount = e.amount
      ∧ ((f e).reversed = false → e.reversed = false)) :
    rewardsFor (rewards.map f) i ≤ rewardsFor rewards i :=
  filterSum_map_le _ _ f rewards (fun e he => by
    obtain ⟨h1, h2, h3⟩ := hf e
    simp only [Bool.and_eq_true, Bool.not_eq_true', h1] at he
    exact ⟨by simp [he.1, h3 he.2], h2⟩)

theorem rewardsFor_map (rewards : List RewardEntry) (f : RewardEntry → RewardEntry) (i : Nat)
    (hf : ∀ e,
      ((f e).assessmentId == i && !(f e).reversed) = (e.assessmentId == i && !e.reversed)
        ∧ (f e).amount = e.amount) :
    rewardsFor (rewards.map f) i = rewardsFor rewards i := by
  induction rewards with
  | nil => rfl
  | cons e es ih =>
    have he := hf e
    have ih1 := ih
    simp only [rewardsFor, List.map_cons, List.filter_cons, he.1] at ih1 ⊢
    by_cases hp : (e.assessmentId == i && !e.reversed) = true
    · simp only [hp, if_true, List.map_cons, List.sum_cons, he.2, ih1]
    · simp only [hp, if_false]
      exact ih1

theorem creditedFor_split (rewards : List RewardEntry) (i : Nat) :
    creditedFor rewards i = rewardsFor rewards i + reversedFor rewards i := by
  induction rewards with
  | nil => rfl
  | cons e es ih =>
    simp only [creditedFor, rewardsFor, reversedFor, List.filter_cons] at ih ⊢
    by_cases h1 : (e.assessmentId == i) = true
    · by_cases h2 : e.reversed = true
      · simp only [h1, h2, Bool.not_true, Bool.and_false, Bool.and_self, if_true,
          List.map_cons, List.sum_cons, Bool.false_eq_true, if_false]
        omega
      · have h2f : e.reversed = false := by simpa using h2
        simp only [h1, h2f, Bool.not_false, Bool.and_self, Bool.and_false, if_true,
          List.map_cons, List.sum_cons, Bool.false_eq_true, if_false]
        omega
    · have h1f : (e.assessmentId == i) = false := by simpa using h1
      simp only [h1f, Bool.false_and, Bool.false_eq_true, if_false]
      exact ih

theorem rewardsFor_distribute_le (bonus : Nat → Nat) (i j : Nat) (a : Assessment) (o : Outcome) :
    rewardsFor (distribute bonus i a o) j ≤ a.totalReward := by
  by_cases hij : j = i
  · subst hij
    exact le_trans (rewardsFor_le_creditedFor _ _) (creditedFor_distribute_le bonus j a o)
  · rw [rewardsFor_eq_zero _ _ (fun e he => by
      rw [distribute_assessmentId bonus i a o e he]; exact fun hc => hij hc.symm)]
    exact Nat.zero_le _

/-! ### The invariant of the state machine -/

theorem Consistent_init (params : ParameterTable) : Consistent (init params) where
  ids := fun e he => absurd he (List.not_mem_nil e)
  unfinalized := fun id a ha => by simp [init] at ha
  bounded := fun id a ha => by simp [init] at ha
  outcome := fun id a o ha => by simp [init] at ha

theorem Consistent_congr (s s1 : State) (h1 : s1.assessments = s.assessments)
    (h2 : s1.rewards = s.rewards) (h : Consistent s) :
    Consistent s1 where
  ids := by rw [h1, h2]; exact h.ids
  unfinalized := by rw [h1, h2]; exact h.unfinalized
  bounded := by rw [h1, h2]; exact h.bounded
  outcome := by rw [h1]; exact h.outcome

theorem Consistent_updateUintParameters (env : Env) (caller : Nat) (s s1 : State) (key : String)
    (value : Nat) (hs : updateUintParameters env caller s key value = .ok s1) (h : Consistent s) :
    Consistent s1 := by
  unfold updateUintParameters at hs
  split at hs
  · exact Except.noConfusion hs
  · split at hs
    · cases hs; exact Consistent_congr s _ rfl rfl h
    · exact Except.noConfusion hs

theorem Consistent_stake (env : Env) (s s1 : State) (member amount : Nat)
    (hs : stake env s member amount = .ok s1) (h : Consistent s) : Consistent s1 := by
  unfold stake at hs
  split at hs
  · exact Except.noConfusion hs
  · split at hs
    · exact Except.noConfusion hs
    · split at hs
      · exact Except.noConfusion hs
      · cases hs; exact Consistent_congr s _ rfl rfl h

theorem Consistent_startAssessment (s : State) (externalRef rewardBudget now : Nat) (h : Consistent s) :
    Consistent (startAssessment s externalRef rewardBudget now).1 where
  ids := fun e he => by
    have := h.ids e he
    simp only [startAssessment, List.length_append, List.length_singleton]
    omega
  unfinalized := fun id a ha ho e he => by
    simp only [startAssessment] at ha he
    rcases Nat.lt_or_ge id s.assessments.length with hlt | hge
    · rw [List.getElem?_append_left hlt] at ha
      exact h.unfinalized id a ha ho e he
    · have := h.ids e he
      omega
  bounded := fun id a ha => by
    simp only [startAssessment] at ha ⊢
    rcases Nat.lt_or_ge id s.assessments.length with hlt | hge
    · rw [List.getElem?_append_left hlt] at ha
      exact h.bounded id a ha
    · rw [rewardsFor_eq_zero]
      · exact Nat.zero_le _
      · intro e he
        have := h.ids e he
        omega
  outcome := fun id a o ha ho => by
    simp only [startAssessment] at ha
    rcases Nat.lt_or_ge id s.assessments.length with hlt | hge
    · rw [List.getElem?_append_left hlt] at ha
      exact h.outcome id a o ha ho
    · rw [List.getElem?_append_right hge] at ha
      rcases Nat.eq_zero_or_pos (id - s.assessments.length) with h0 | hpos
      · rw [h0] at ha
        simp at ha
        subst ha
        simp at ho
      · rw [List.getElem?_eq_none (by simp only [List.length_singleton]; omega)] at ha
        exact Option.noConfusion ha

theorem Consistent_set_open (s : State) (i : Nat) (a a1 : Assessment) (members : List Member)
    (ha : s.assessments[i]? = some a) (hT : a1.totalReward = a.totalReward)
    (hnone : a.poll.outcome = none) (hnone1 : a1.poll.outcome = none) (h : Consistent s) :
    Consistent { s with assessments := s.assessments.set i a1, members := members } where
  ids := fun e he => by
    simp only [List.length_set]
    exact h.ids e he
  unfinalized := fun j b hb ho e he => by
    by_cases hij : i = j
    · subst hij
      exact h.unfinalized i a ha hnone e he
    · simp only [List.getElem?_set_ne hij] at hb
      exact h.unfinalized j b hb ho e he
  bounded := fun j b hb => by
    by_cases hij : i = j
    · subst hij
      simp only [List.getElem?_set_self (lookup_lt _ _ _ ha), Option.some.injEq] at hb
      subst hb
      rw [hT]
      exact h.bounded i a ha
    · simp only [List.getElem?_set_ne hij] at hb
      exact h.bounded j b hb
  outcome := fun j b o hb ho => by
    by_cases hij : i = j
    · subst hij
      simp only [List.getElem?_set_self (lookup_lt _ _ _ ha), Option.some.injEq] at hb
      subst hb
      rw [hnone1] at ho
      exact Option.noConfusion ho
    · simp only [List.getElem?_set_ne hij] at hb
      exact h.outcome j b o hb ho

theorem castVote_ok (env : Env) (s s1 : State) (member i : Nat) (accepted : Bool) (now : Nat)
    (hs : castVote env s member i accepted now = .ok s1) :
    ∃ a a1 members, s.assessments[i]? = some a ∧ a.poll.outcome = none
      ∧ a1.poll.outcome = none ∧ a1.totalReward = a.totalReward
      ∧ s1 = { s with assessments := s.assessments.set i a1, members := members } := by
  unfold castVote at hs
  split at hs
  · exact Except.noConfusion hs
  · rename_i a ha
    split at hs
    · exact Except.noConfusion hs
    · rename_i hopen
      split at hs
      · exact Except.noConfusion hs
      · split at hs
        · exact Except.noConfusion hs
        · split at hs
          · exact Except.noConfusion hs
          · have hnone : a.poll.outcome = none := by
              cases ho : a.poll.outcome with
              | none => rfl
              | some o => rw [ho] at hopen; simp at hopen
            injection hs with hs
            refine ⟨a, _, _, ha, hnone, ?_, ?_, hs.symm⟩
            · exact hnone
            · rfl

theorem Consistent_castVote (env : Env) (s s1 : State) (member i : Nat) (accepted : Bool)
    (now : Nat) (hs : castVote env s member i accepted now = .ok s1) (h : Consistent s) :
    Consistent s1 := by
  obtain ⟨a, a1, members, ha, hnone, hnone1, hT, rfl⟩ := castVote_ok env s s1 member i accepted now hs
  exact Consistent_set_open s i a a1 members ha hT hnone hnone1 h

theorem Consistent_finalize (env : Env) (s s1 : State) (i now : Nat)
    (hs : finalize env s i now = .ok s1) (h : Consistent s) : Consistent s1 := by
  cases ha : s.assessments[i]? with
  | none => simp only [finalize, ha] at hs; exact Except.noConfusion hs
  | some a =>
    cases ho : a.poll.outcome with
    | some o =>
      rw [finalize_of_finalized env s i now a o ha ho] at hs
      injection hs with hs
      exact hs ▸ h
    | none =>
      by_cases hend : a.poll.«end» ≤ now
      · rw [finalize_of_open env s i now a ha ho hend] at hs
        injection hs with hs
        subst hs
        have hlen := lookup_lt _ _ _ ha
        refine ⟨?_, ?_, ?_, ?_⟩
        · intro e he
          simp only [List.length_set]
          rcases List.mem_append.mp he with he | he
          · exact h.ids e he
          · rw [distribute_assessmentId _ _ _ _ e he]; exact hlen
        · intro j b hb hbo e he
          by_cases hij : i = j
          · subst hij
            simp only [List.getElem?_set_self hlen, Option.some.injEq] at hb
            subst hb
            exact Option.noConfusion hbo
          · simp only [List.getElem?_set_ne hij] at hb
            rcases List.mem_append.mp he with he | he
            · exact h.unfinalized j b hb hbo e he
            · rw [distribute_assessmentId _ _ _ _ e he]; exact hij
        · intro j b hb
          simp only [rewardsFor_append]
          by_cases hij : i = j
          · subst hij
            simp only [List.getElem?_set_self hlen, Option.some.injEq] at hb
            subst hb
            rw [rewardsFor_eq_zero s.rewards i (h.unfinalized i a ha ho), Nat.zero_add]
            exact rewardsFor_distribute_le _ i i a _
          · simp only [List.getElem?_set_ne hij] at hb
            rw [rewardsFor_eq_zero (distribute _ i a _) j (fun e he => by
              rw [distribute_assessmentId _ _ _ _ e he]; exact hij), Nat.add_zero]
            exact h.bounded j b hb
        · intro j b o hb hbo
          by_cases hij : i = j
          · subst hij
            simp only [List.getElem?_set_self hlen, Option.some.injEq] at hb
            subst hb
            simp only [Option.some.injEq] at hbo
            exact hbo.symm
          · simp only [List.getElem?_set_ne hij] at hb
            exact h.outcome j b o hb hbo
      · simp only [finalize, ha, ho, if_pos (Nat.lt_of_not_le hend)] at hs
        exact Except.noConfusion hs

theorem Consistent_withdrawRewards (env : Env) (s s1 : State) (member amount : Nat)
    (hs : withdrawRewards env s member = .ok (s1, amount)) (h : Consistent s) :
    Consistent s1 := by
  unfold withdrawRewards at hs
  split at hs
  · injection hs with hs
    injection hs with hs _
    exact hs ▸ h
  · split at hs
    · exact Except.noConfusion hs
    · injection hs with hs
      injection hs with hs _
      subst hs
      have hg : ∀ e : RewardEntry,
          (if (e.member == member && !e.withdrawn && !e.reversed) = true
            then { e with withdrawn := true } else e).assessmentId = e.assessmentId
          ∧ (if (e.member == member && !e.withdrawn && !e.reversed) = true
            then { e with withdrawn := true } else e).amount = e.amount
          ∧ ((if (e.member == member && !e.withdrawn && !e.reversed) = true
            then { e with withdrawn := true } else e).reversed = false → e.reversed = false) := by
        intro e; split <;> exact ⟨rfl, rfl, fun hr => hr⟩
      refine ⟨?_, ?_, ?_, h.outcome⟩
      · intro e he
        obtain ⟨e0, he0, rfl⟩ := List.mem_map.mp he
        rw [(hg e0).1]; exact h.ids e0 he0
      · intro j b hb hbo e he
        obtain ⟨e0, he0, rfl⟩ := List.mem_map.mp he
        rw [(hg e0).1]; exact h.unfinalized j b hb hbo e0 he0
      · intro j b hb
        exact le_trans (rewardsFor_map_le s.rewards _ j hg) (h.bounded j b hb)

theorem Consistent_submitFraud (env : Env) (caller : Nat) (s s1 : State)
    (accused proof now attempt : Nat)
    (hs : submitFraud env caller s accused proof now = .ok (s1, attempt)) (h : Consistent s) :
    Consistent s1 := by
  unfold submitFraud at hs
  split at hs
  · exact Except.noConfusion hs
  · split at hs
    · injection hs with hs
      injection hs with hs _
      subst hs
      exact ⟨h.ids, h.unfinalized, h.bounded, h.outcome⟩
    · exact Except.noConfusion hs

theorem invalidateVote_outcome (accused : Nat) (p : Poll) :
    (invalidateVote accused p).outcome = p.outcome := by
  unfold invalidateVote
  split <;> rfl

theorem processFraudOne_ok (env : Env) (now k : Nat) (s s1 : State) (i : Nat)
    (hs : processFraudOne env now k s i = .ok s1) :
    ∃ (a a1 : Assessment) (g : RewardEntry → RewardEntry) (extra : List RewardEntry),
      s.assessments[i]? = some a
        ∧ a1.totalReward = a.totalReward
        ∧ (a1.poll.outcome = none → a.poll.outcome = none ∧ extra = [])
        ∧ (∀ o, a1.poll.outcome = some o → o = leadingSide a1.poll.accepted a1.poll.denied)
        ∧ (∀ e, (g e).assessmentId = e.assessmentId ∧ (g e).amount = e.amount
            ∧ ((g e).reversed = false → e.reversed = false))
        ∧ (∀ e, e.assessmentId ≠ i → g e = e)
        ∧ (∀ e ∈ extra, e.assessmentId = i)
        ∧ (extra = [] ∨
            ((∀ e, e.assessmentId = i → (g e).reversed = true)
              ∧ rewardsFor extra i ≤ a1.totalReward))
        ∧ s1.assessments = s.assessments.set i a1
        ∧ s1.rewards = s.rewards.map g ++ extra := by
  unfold processFraudOne at hs
  split at hs
  · exact Except.noConfusion hs
  · rename_i f hf
    split at hs
    · exact Except.noConfusion hs
    · rename_i a ha
      split at hs
      · exact Except.noConfusion hs
      · split at hs
        · exact Except.noConfusion hs
        · split at hs
          · rename_i ho
            injection hs with hs
            subst hs
            refine ⟨a, _, fun e => e, [], ha, ?_, ?_, ?_, fun e => ⟨rfl, rfl, fun hr => hr⟩,
              fun e _ => rfl, fun e he => absurd he (List.not_mem_nil e), Or.inl rfl, rfl, ?_⟩
            · rfl
            · intro _; exact ⟨ho, rfl⟩
            · intro o hc
              simp only [invalidateVote_outcome, ho] at hc
              exact Option.noConfusion hc
            · simp
          · rename_i o ho
            injection hs with hs
            subst hs
            refine ⟨a, _, _, _, ha, ?_, ?_, ?_, ?_, ?_, ?_, ?_, rfl, rfl⟩
            · rfl
            · intro hc; exact Option.noConfusion hc
            · intro o2 hc
              simp only [Option.some.injEq] at hc
              exact hc.symm
            · intro e
              split
              · exact ⟨rfl, rfl, fun hr => Bool.noConfusion hr⟩
              · exact ⟨rfl, rfl, fun hr => hr⟩
            · intro e hne
              have hb : (e.assessmentId == i) = false := by simpa using hne
              simp only [hb, Bool.false_and, Bool.false_eq_true, if_false]
            · intro e he
              split at he
              · exact distribute_assessmentId _ _ _ _ e he
              · exact absurd he (List.not_mem_nil e)
            · by_cases hflip :
                (leadingSide (invalidateVote f.accusedVoter a.poll).accepted
                  (invalidateVote f.accusedVoter a.poll).denied != o) = true
              · right
                refine ⟨?_, ?_⟩
                · intro e hei
                  have hb : (e.assessmentId == i) = true := by simpa using hei
                  by_cases hr : e.reversed = true
                  · simp only [hb, hr, Bool.not_true, Bool.and_false, Bool.false_and,
                      Bool.false_eq_true, if_false]
                  · have hrf : e.reversed = false := by simpa using hr
                    simp only [hb, hrf, hflip, Bool.not_false, Bool.and_self, Bool.true_or,
                      if_true]
                · simp only [hflip, if_true]
                  exact rewardsFor_distribute_le _ i i _ _
              · left
                simp [hflip]

theorem Consistent_processFraudOne (env : Env) (now k : Nat) (s s1 : State) (i : Nat)
    (hs : processFraudOne env now k s i = .ok s1) (h : Consistent s) : Consistent s1 := by
  obtain ⟨a, a1, g, extra, ha, hT, hopen, hout, hg, hother, hextra, hflip, hA, hR⟩ :=
    processFraudOne_ok env now k s s1 i hs
  have hlen := lookup_lt _ _ _ ha
  refine ⟨?_, ?_, ?_, ?_⟩
  · intro e he
    rw [hA, List.length_set]
    rw [hR] at he
    rcases List.mem_append.mp he with he | he
    · obtain ⟨e0, he0, rfl⟩ := List.mem_map.mp he
      rw [(hg e0).1]; exact h.ids e0 he0
    · rw [hextra e he]; exact hlen
  · intro j b hb hbo e he
    rw [hA] at hb
    rw [hR] at he
    by_cases hij : i = j
    · subst hij
      simp only [List.getElem?_set_self hlen, Option.some.injEq] at hb
      subst hb
      obtain ⟨hao, hnil⟩ := hopen hbo
      rw [hnil, List.append_nil] at he
      obtain ⟨e0, he0, rfl⟩ := List.mem_map.mp he
      rw [(hg e0).1]; exact h.unfinalized i a ha hao e0 he0
    · simp only [List.getElem?_set_ne hij] at hb
      rcases List.mem_append.mp he with he | he
      · obtain ⟨e0, he0, rfl⟩ := List.mem_map.mp he
        rw [(hg e0).1]; exact h.unfinalized j b hb hbo e0 he0
      · rw [hextra e he]; exact hij
  · intro j b hb
    rw [hA] at hb
    rw [hR, rewardsFor_append]
    by_cases hij : i = j
    · subst hij
      simp only [List.getElem?_set_self hlen, Option.some.injEq] at hb
      subst hb
      rcases hflip with hnil | ⟨hall, hle⟩
      · rw [hnil, hT]
        exact le_trans (Nat.le_of_eq (Nat.add_zero _))
          (le_trans (rewardsFor_map_le s.rewards g i hg) (h.bounded i a ha))
      · have hzero : rewardsFor (s.rewards.map g) i = 0 :=
          filterSum_eq_zero _ _ (fun e he => by
            obtain ⟨e0, _, rfl⟩ := List.mem_map.mp he
            by_cases hei : e0.assessmentId = i
            · simp [hall e0 hei]
            · have : ((g e0).assessmentId == i) = false := by
                rw [(hg e0).1]; simpa using hei
              simp [this])
        rw [hzero, Nat.zero_add]
        exact hle
    · simp only [List.getElem?_set_ne hij] at hb
      have hsame : rewardsFor (s.rewards.map g) j = rewardsFor s.rewards j :=
        rewardsFor_map s.rewards g j (fun e => by
          by_cases hei : e.assessmentId = i
          · have h1 : ((g e).assessmentId == j) = false := by
              rw [(hg e).1, hei]; simpa using hij
            have h2 : (e.assessmentId == j) = false := by
              rw [hei]; simpa using hij
            exact ⟨by simp [h1, h2], (hg e).2.1⟩
          · rw [hother e hei]
            exact ⟨rfl, rfl⟩)
      rw [hsame, rewardsFor_eq_zero extra j (fun e he => by rw [hextra e he]; exact hij),
        Nat.add_zero]
      exact h.bounded j b hb
  · intro j b o hb hbo
    rw [hA] at hb
    by_cases hij : i = j
    · subst hij
      simp only [List.getElem?_set_self hlen, Option.some.injEq] at hb
      subst hb
      exact hout o hbo
    · simp only [List.getElem?_set_ne hij] at hb
      exact h.outcome j b o hb hbo

theorem Consistent_foldlM_processFraudOne (env : Env) (now k : Nat) (ids : List Nat)
    (s s1 : State) (hs : ids.foldlM (processFraudOne env now k) s = .ok s1)
    (h : Consistent s) : Consistent s1 := by
  induction ids generalizing s with
  | nil =>
    simp only [List.foldlM_nil] at hs
    injection hs with hs
    exact hs ▸ h
  | cons i rest ih =>
    rw [List.foldlM_cons] at hs
    cases hone : processFraudOne env now k s i with
    | error err =>
      rw [hone] at hs
      exact Except.noConfusion hs
    | ok s2 =>
      rw [hone] at hs
      exact ih s2 hs (Consistent_processFraudOne env now k s s2 i hone h)

theorem Consistent_step (env : Env) (s s1 : State) (hstep : Step env s s1) (h : Consistent s) :
    Consistent s1 := by
  cases hstep
  case updateUintParameters caller key value hs =>
    exact Consistent_updateUintParameters env caller s s1 key value hs h
  case stake member amount hs => exact Consistent_stake env s s1 member amount hs h
  case ledger members => exact Consistent_congr s _ rfl rfl h
  case startAssessment externalRef rewardBudget now =>
    exact Consistent_startAssessment s externalRef rewardBudget now h
  case castVote member i accepted now hs =>
    exact Consistent_castVote env s s1 member i accepted now hs h
  case finalize i now hs => exact Consistent_finalize env s s1 i now hs h
  case withdrawRewards member amount hs =>
    exact Consistent_withdrawRewards env s s1 member amount hs h
  case submitFraud caller accused proof now attempt hs =>
    exact Consistent_submitFraud env caller s s1 accused proof now attempt hs h
  case processFraud attempt ids now hs =>
    exact Consistent_foldlM_processFraudOne env now attempt _ s s1 hs h

/-- Every reachable state is consistent. -/
theorem Consistent_of_reachable (env : Env) (s : State) (h : Reachable env s) :
    Consistent s := by
  induction h with
  | init params => exact Consistent_init params
  | step s s1 _ hstep ih => exact Consistent_step env s s1 hstep ih

end AssessmentEngine

/-! ## The scenarios and the claims about the engine -/

namespace AssessmentEngine

theorem reachable_scenarioVoted : Reachable scenarioEnv scenarioVoted := by
  have h0 : Reachable scenarioEnv (init scenarioParams) := .init _
  have h1 : Reachable scenarioEnv scenarioStakedX :=
    .step _ _ h0 (.stake _ _ 1 100 rfl)
  have h2 : Reachable scenarioEnv scenarioStaked :=
    .step _ _ h1 (.stake _ _ 2 50 rfl)
  have h3 : Reachable scenarioEnv scenarioStarted :=
    .step _ _ h2 (.startAssessment _ 0 1000 0)
  have h4 : Reachable scenarioEnv scenarioVotedX :=
    .step _ _ h3 (.castVote _ _ 1 0 true 0 rfl)
  exact .step _ _ h4 (.castVote _ _ 2 0 false day rfl)

theorem reachable_scenarioFinalized : Reachable scenarioEnv scenarioFinalized :=
  .step _ _ reachable_scenarioVoted (.finalize _ _ 0 (7 * day) rfl)

theorem reachable_scenarioWithdrawnY : Reachable scenarioEnv scenarioWithdrawnY := by
  have h1 : Reachable scenarioEnv scenarioWithdrawnX :=
    .step _ _ reachable_scenarioFinalized (.withdrawRewards _ _ 1 1000 rfl)
  have h2 : Reachable scenarioEnv scenarioReported :=
    .step _ _ h1 (.submitFraud _ _ 0 1 0 (8 * day) 0 rfl)
  have h3 : Reachable scenarioEnv scenarioAfterFraud :=
    .step _ _ h2 (.processFraud _ _ 0 [0] (8 * day) rfl)
  exact .step _ _ h3 (.withdrawRewards _ _ 2 1000 rfl)

/-- The first scenario of section 8: the outcome is accept, X is credited the full
1000 and Y nothing. -/
theorem scenario_finalize_rewards :
    getPoll scenarioFinalized 0
        = some { accepted := 100, denied := 50, start := 0, «end» := 7 * day,
                 votes := [⟨1, 0, true, 100, 0, false⟩, ⟨2, 0, false, 50, day, false⟩],
                 outcome := some .accepted }
      ∧ getRewards scenarioFinalized 1 = 1000 ∧ getRewards scenarioFinalized 2 = 0 := by
  decide

/-- The second scenario of section 8: the outcome flips to deny, a reversal of X's
1000 is required and 1000 is distributed to Y. -/
theorem scenario_fraud_rewards :
    (getPoll scenarioAfterFraud 0).map (fun p => p.outcome) = some (some .denied)
      ∧ scenarioAfterFraud.reversals = [⟨1, 0, 1000⟩]
      ∧ getRewards scenarioAfterFraud 2 = 1000 := by
  decide

theorem outcome_leadingSide (accepted denied : Nat) (stored : Option Outcome)
    (h : stored = some (leadingSide accepted denied)) :
    (stored = some .accepted ↔ denied < accepted)
      ∧ (stored = some .denied ↔ ¬ denied < accepted)
      ∧ (accepted = denied → stored = some .denied) := by
  subst h
  unfold leadingSide
  by_cases hlt : denied < accepted
  · simp [hlt]
    omega
  · simp [hlt]

/-- C1. In every reachable state, and in any state where the poll is not finalized
yet, for every assessment whose poll has ended (`end ≤ now`), `finalize` succeeds and
leaves the tallies `a`, `d` as they were with a stored outcome that is `accepted` if
and only if `a > d` and `denied` otherwise; in particular a tie `a = d` is `denied`. -/
theorem finalize_stores_leading_side (env : Env) (s : State) (i now : Nat) (a : Assessment)
    (hstate : Reachable env s ∨ a.poll.outcome = none) (ha : s.assessments[i]? = some a)
    (hend : a.poll.«end» ≤ now) :
    ∃ s1 a1, finalize env s i now = .ok s1 ∧ s1.assessments[i]? = some a1
      ∧ a1.poll.accepted = a.poll.accepted ∧ a1.poll.denied = a.poll.denied
      ∧ (a1.poll.outcome = some .accepted ↔ a.poll.denied < a.poll.accepted)
      ∧ (a1.poll.outcome = some .denied ↔ ¬ a.poll.denied < a.poll.accepted)
      ∧ (a.poll.accepted = a.poll.denied → a1.poll.outcome = some .denied) := by
  cases ho : a.poll.outcome with
  | some o =>
    have hreach : Reachable env s := by
      rcases hstate with h | h
      · exact h
      · rw [ho] at h; exact Option.noConfusion h
    have hlead := (Consistent_of_reachable env s hreach).outcome i a o ha ho
    refine ⟨s, a, finalize_of_finalized env s i now a o ha ho, ha, rfl, rfl, ?_⟩
    exact outcome_leadingSide _ _ _ (by rw [ho, hlead])
  | none =>
    refine ⟨_, _, finalize_of_open env s i now a ha ho hend,
      List.getElem?_set_self (lookup_lt _ _ _ ha), rfl, rfl, ?_⟩
    exact outcome_leadingSide _ _ _ rfl

/-- The scenario of the claim: X (stake 100) accepts, Y (stake 50) denies, and
`finalize` at 7 days stores accept. -/
theorem finalize_stores_leading_side_scenario :
    ∃ s1 a1, finalize scenarioEnv scenarioVoted 0 (7 * day) = .ok s1
      ∧ s1.assessments[0]? = some a1
      ∧ a1.poll.accepted = 100 ∧ a1.poll.denied = 50
      ∧ a1.poll.outcome = some .accepted := by
  obtain ⟨s1, a1, h1, h2, h3, h4, h5, _, _⟩ :=
    finalize_stores_leading_side scenarioEnv scenarioVoted 0 (7 * day)
      { id := 0, externalRef := 0,
        poll := { accepted := 100, denied := 50, start := 0, «end» := 7 * day,
                  votes := [⟨1, 0, true, 100, 0, false⟩, ⟨2, 0, false, 50, day, false⟩],
                  outcome := none },
        totalReward := 1000, rewardRatio := 0 }
      (Or.inl reachable_scenarioVoted) (by decide) (by decide)
  exact ⟨s1, a1, h1, h2, h3, h4, h5.mpr (by decide)⟩

/-- The idempotence of `finalize` on the scenario's poll, first finalized at 7 days
and again a day later. -/
theorem finalize_idempotent_scenario :
    ∃ s1, finalize scenarioEnv scenarioVoted 0 (7 * day) = .ok s1
      ∧ finalize scenarioEnv s1 0 (8 * day) = .ok s1
      ∧ s1.rewards = [⟨1, 0, 1000, false, false⟩] := by
  obtain ⟨s1, h1, h2, _, _, _, h3, _⟩ :=
    finalize_idempotent scenarioEnv scenarioVoted 0 (7 * day) (8 * day)
      { id := 0, externalRef := 0,
        poll := { accepted := 100, denied := 50, start := 0, «end» := 7 * day,
                  votes := [⟨1, 0, true, 100, 0, false⟩, ⟨2, 0, false, 50, day, false⟩],
                  outcome := none },
        totalReward := 1000, rewardRatio := 0 }
      (by decide) (by decide)
  exact ⟨s1, h1, h2, (h3 rfl).trans (by decide)⟩

/-- The key the operator script sends for the pool's `MIN_ETH` is not a parameter of
the engine: the update fails with `UnknownParameter` and changes nothing. -/
theorem updateUintParameters_unknown_key_min_eth :
    scenarioEnv.recognize SetMinPoolEth.minEthKey = none
      ∧ updateUintParameters scenarioEnv 0 scenarioStaked SetMinPoolEth.minEthKey (10 ^ 17)
          = .error .UnknownParameter
      ∧ (stateAfter scenarioStaked
          (updateUintParameters scenarioEnv 0 scenarioStaked SetMinPoolEth.minEthKey
            (10 ^ 17))).params = scenarioStaked.params
      ∧ stateAfter scenarioStaked
          (updateUintParameters scenarioEnv 0 scenarioStaked SetMinPoolEth.minEthKey (10 ^ 17))
          = scenarioStaked :=
  ⟨by decide,
    updateUintParameters_unknown_key scenarioEnv 0 scenarioStaked SetMinPoolEth.minEthKey
      (10 ^ 17) (by decide)⟩

theorem paidOutFor_le_creditedFor (rewards : List RewardEntry) (i : Nat) :
    paidOutFor rewards i ≤ creditedFor rewards i := by
  induction rewards with
  | nil => exact Nat.le_refl _
  | cons e es ih =>
    simp only [paidOutFor, creditedFor, List.filter_cons] at ih ⊢
    by_cases h1 : (e.assessmentId == i) = true
    · by_cases h2 : e.withdrawn = true
      · simp only [h1, h2, Bool.and_self, if_true, List.map_cons, List.sum_cons]
        omega
      · simp only [h1, h2, Bool.true_and, if_true, List.map_cons, List.sum_cons]
        simp only [Bool.false_eq_true, if_false]
        omega
    · simp only [h1, Bool.false_and, if_false]
      simpa [h1] using ih

theorem sum_floor_shares_remainder {α : Type} (l : List α) (w : α → Nat) (T W : Nat)
    (hW : 0 < W) :
    T * (l.map w).sum ≤ W * (l.map (fun x => T * w x / W)).sum + l.length * (W - 1) := by
  induction l with
  | nil => simp
  | cons x xs ih =>
    simp only [List.map_cons, List.sum_cons, List.length_cons]
    have hdiv : T * w x = W * (T * w x / W) + T * w x % W := (Nat.div_add_mod _ _).symm
    have hmod : T * w x % W ≤ W - 1 := Nat.le_sub_one_of_lt (Nat.mod_lt _ hW)
    rw [Nat.mul_add, Nat.mul_add, Nat.add_mul, Nat.one_mul]
    omega

/-- A distribution leaves less than one unit per winner uncredited. -/
theorem distribute_remainder_lt (bonus : Nat → Nat) (i : Nat) (a : Assessment) (o : Outcome)
    (hW : 0 < totalWinningWeight bonus o a.poll) :
    a.totalReward < creditedFor (distribute bonus i a o) i + (winners o a.poll).length := by
  rw [creditedFor_distribute]
  have h := sum_floor_shares_remainder (winners o a.poll) (shareWeight bonus) a.totalReward
    (totalWinningWeight bonus o a.poll) hW
  have hn : 0 < (winners o a.poll).length := by
    rcases Nat.eq_zero_or_pos (winners o a.poll).length with h0 | hpos
    · rw [List.length_eq_zero] at h0
      simp [totalWinningWeight, h0] at hW
    · exact hpos
  generalize ((winners o a.poll).map fun rv =>
    a.totalReward * shareWeight bonus rv / totalWinningWeight bonus o a.poll).sum = F at h ⊢
  have hsum : ((winners o a.poll).map (shareWeight bonus)).sum
      = totalWinningWeight bonus o a.poll := rfl
  rw [hsum] at h
  generalize totalWinningWeight bonus o a.poll = W at h hW
  generalize (winners o a.poll).length = n at h hn
  generalize a.totalReward = T at h ⊢
  by_contra hc
  have hle : F + n ≤ T := Nat.le_of_not_lt hc
  have h1 : (F + n) * W ≤ T * W := Nat.mul_le_mul_right W hle
  have h2 : n * (W - 1) + n = n * W := by
    rw [← Nat.mul_succ, Nat.succ_eq_add_one, Nat.sub_add_cancel hW]
  rw [Nat.add_mul] at h1
  rw [Nat.mul_comm W F] at h
  omega

/-- C2. In every reachable state and for every assessment, whatever fraud resolution
has done to it, the rewards paid for the assessment (the rewards credited for it that
are not reversed) sum over all voters to at most `totalReward`, and the rest of
`totalReward` is retained by the protocol. Every reward ever credited for it is one
of these or a reward that fraud resolution has reversed, and the rewards transferred
out are among the credited ones. A distribution credits every winner a share rounded
down, never up: the rounding remainder is allocated to no voter and is less than one
unit per winner. -/
theorem rewards_never_exceed_totalReward (env : Env) (s : State) (i : Nat) (a : Assessment)
    (hreach : Reachable env s) (ha : s.assessments[i]? = some a) :
    rewardsFor s.rewards i ≤ a.totalReward
      ∧ rewardsFor s.rewards i + retainedFor s i = a.totalReward
      ∧ creditedFor s.rewards i = rewardsFor s.rewards i + reversedFor s.rewards i
      ∧ paidOutFor s.rewards i ≤ creditedFor s.rewards i
      ∧ (∀ (bonus : Nat → Nat) (o : Outcome),
          creditedFor (distribute bonus i a o) i ≤ a.totalReward
            ∧ (∀ e ∈ distribute bonus i a o, ∃ rv ∈ winners o a.poll,
                e.member = rv.2.voter
                  ∧ e.amount
                    = a.totalReward * shareWeight bonus rv / totalWinningWeight bonus o a.poll
                  ∧ e.amount * totalWinningWeight bonus o a.poll
                    ≤ a.totalReward * shareWeight bonus rv)
            ∧ (0 < totalWinningWeight bonus o a.poll →
                a.totalReward
                  < creditedFor (distribute bonus i a o) i + (winners o a.poll).length)) := by
  have hle := (Consistent_of_reachable env s hreach).bounded i a ha
  refine ⟨hle, ?_, creditedFor_split _ _, paidOutFor_le_creditedFor _ _, ?_⟩
  · simp only [retainedFor, ha]
    omega
  · intro bonus o
    refine ⟨creditedFor_distribute_le bonus i a o, ?_, distribute_remainder_lt bonus i a o⟩
    intro e he
    simp only [distribute, List.mem_map] at he
    obtain ⟨rv, hrv, rfl⟩ := he
    exact ⟨rv, hrv, rfl, rfl, Nat.div_mul_le_self _ _⟩

/-- The second scenario of section 8, after X and Y have both withdrawn: the rewards
of the assessment are Y's 1000, within `totalReward = 1000`; X's 1000 is the reversed
reward, required back through the outbox. -/
theorem rewards_never_exceed_totalReward_scenario :
    rewardsFor scenarioWithdrawnY.rewards 0 = 1000
      ∧ rewardsFor scenarioWithdrawnY.rewards 0 ≤ 1000
      ∧ reversedFor scenarioWithdrawnY.rewards 0 = 1000
      ∧ scenarioWithdrawnY.reversals = [⟨1, 0, 1000⟩]
      ∧ creditedFor scenarioWithdrawnY.rewards 0
          = rewardsFor scenarioWithdrawnY.rewards 0 + reversedFor scenarioWithdrawnY.rewards 0 :=
  ⟨by decide,
    (rewards_never_exceed_totalReward scenarioEnv scenarioWithdrawnY 0
      { id := 0, externalRef := 0,
        poll := { accepted := 0, denied := 50, start := 0, «end» := 7 * day,
                  votes := [⟨1, 0, true, 100, 0, true⟩, ⟨2, 0, false, 50, day, false⟩],
                  outcome := some .denied },
        totalReward := 1000, rewardRatio := 0 }
      reachable_scenarioWithdrawnY (by decide)).1,
    by decide, by decide,
    (rewards_never_exceed_totalReward scenarioEnv scenarioWithdrawnY 0
      { id := 0, externalRef := 0,
        poll := { accepted := 0, denied := 50, start := 0, «end» := 7 * day,
                  votes := [⟨1, 0, true, 100, 0, true⟩, ⟨2, 0, false, 50, day, false⟩],
                  outcome := some .denied },
        totalReward := 1000, rewardRatio := 0 }
      reachable_scenarioWithdrawnY (by decide)).2.2.1⟩

end AssessmentEngine

